import Mathlib

/-!
# Verification of `src/librustc/middle/trans/monomorphize.rs`

A shallow embedding of the monomorphization stage of the rustc trans
backend: `monomorphic_fn`, `make_vtable_id`, the `MonoId`/`MonoParamId`
identity model, the instantiation cache (`ccx.monomorphized`) and the
recursion-depth table (`ccx.monomorphizing`).

Types (`ty::t`) are modelled as a small concrete inductive carrying the
two flags the code inspects (`type_needs_infer`, `type_has_params`) and
enough structure for substitution and for strictly growing recursive
instantiation arguments.  Emitted code handles (`ValueRef`) are opaque
naturals.  The emission routines (`trans_fn`, `trans_intrinsic`,
`trans_enum_variant`, `trans_tuple_struct`) are modelled as issuing a
list of further instantiation requests (the environment's `body` map),
which re-enter `monomorphic_fn` — exactly the re-entrancy the cache and
the recursion guard exist for.  Execution is fuel-bounded and returns a
log of observable events so that ordering claims (allocation before
cache insertion before body emission) can be stated.
-/

namespace Monomorphize

/-- `ast::DefId`: a crate id plus an intra-crate node id. -/
structure DefId where
  krate : Nat
  node : Nat
deriving DecidableEq, Repr

/-- Model of `ty::t`: enough structure for the flags the code inspects
(`type_needs_infer`, `type_has_params`), for substitution, and for
building strictly growing argument towers (`box`). -/
inductive Ty where
  | int : Ty
  | param : Nat → Ty
  | infervar : Nat → Ty
  | selfTy : Ty
  | box : Ty → Ty
deriving DecidableEq, Repr

/-- `ty::type_needs_infer`: the type contains an inference variable. -/
def type_needs_infer : Ty → Bool
  | .infervar _ => true
  | .box t => type_needs_infer t
  | _ => false

/-- `ty::type_has_params`: the type contains a free type parameter. -/
def type_has_params : Ty → Bool
  | .param _ => true
  | .box t => type_has_params t
  | _ => false

/-- `ty::RegionSubsts` as used at line 164 (`ty::ErasedRegions`). -/
inductive RegionSubsts where
  | ErasedRegions : RegionSubsts
  | NonerasedRegions : List Nat → RegionSubsts
deriving DecidableEq, Repr

/-- `ty::substs`: an optional resolved self type plus the ordered
concrete type arguments. -/
structure substs where
  regions : RegionSubsts
  self_ty : Option Ty
  tps : List Ty
deriving DecidableEq, Repr

/-- `ty::subst`: substitute the type parameters (and the self type) of a
declared type by the entries of a substitution. -/
def ty_subst (s : substs) : Ty → Ty
  | .int => .int
  | .param n => (s.tps.getD n (.param n))
  | .infervar n => .infervar n
  | .selfTy => s.self_ty.getD .selfTy
  | .box t => .box (ty_subst s t)

/-- `typeck::vtable_origin`: a statically resolved impl selection
(carrying the impl `DefId`, its own substitution and its nested
per-parameter selections), or a parameter-resolved (dynamic) one. -/
inductive VtableOrigin where
  | vtable_static : DefId → substs → List (List VtableOrigin) → VtableOrigin
  | vtable_param : Nat → Nat → VtableOrigin
deriving Repr

mutual
def decEqVtableOrigin : (a b : VtableOrigin) → Decidable (a = b)
  | .vtable_static d₁ s₁ v₁, .vtable_static d₂ s₂ v₂ =>
    match decEq d₁ d₂ with
    | .isFalse h => .isFalse (by intro hc; cases hc; exact h rfl)
    | .isTrue hd =>
      match decEq s₁ s₂ with
      | .isFalse h => .isFalse (by intro hc; cases hc; exact h rfl)
      | .isTrue hs =>
        match decEqVtableRes v₁ v₂ with
        | .isFalse h => .isFalse (by intro hc; cases hc; exact h rfl)
        | .isTrue hv => .isTrue (by rw [hd, hs, hv])
  | .vtable_static _ _ _, .vtable_param _ _ => .isFalse (by intro hc; cases hc)
  | .vtable_param _ _, .vtable_static _ _ _ => .isFalse (by intro hc; cases hc)
  | .vtable_param m₁ n₁, .vtable_param m₂ n₂ =>
    match decEq m₁ m₂ with
    | .isFalse h => .isFalse (by intro hc; cases hc; exact h rfl)
    | .isTrue hm =>
      match decEq n₁ n₂ with
      | .isFalse h => .isFalse (by intro hc; cases hc; exact h rfl)
      | .isTrue hn => .isTrue (by rw [hm, hn])
termination_by structural x => x

def decEqVtableParamResAux : (a b : List VtableOrigin) → Decidable (a = b)
  | [], [] => .isTrue rfl
  | [], _ :: _ => .isFalse (by intro hc; cases hc)
  | _ :: _, [] => .isFalse (by intro hc; cases hc)
  | x :: xs, y :: ys =>
    match decEqVtableOrigin x y with
    | .isFalse h => .isFalse (by intro hc; cases hc; exact h rfl)
    | .isTrue hx =>
      match decEqVtableParamResAux xs ys with
      | .isFalse h => .isFalse (by intro hc; cases hc; exact h rfl)
      | .isTrue hxs => .isTrue (by rw [hx, hxs])
termination_by structural x => x

def decEqVtableRes : (a b : List (List VtableOrigin)) → Decidable (a = b)
  | [], [] => .isTrue rfl
  | [], _ :: _ => .isFalse (by intro hc; cases hc)
  | _ :: _, [] => .isFalse (by intro hc; cases hc)
  | x :: xs, y :: ys =>
    match decEqVtableParamResAux x y with
    | .isFalse h => .isFalse (by intro hc; cases hc; exact h rfl)
    | .isTrue hx =>
      match decEqVtableRes xs ys with
      | .isFalse h => .isFalse (by intro hc; cases hc; exact h rfl)
      | .isTrue hxs => .isTrue (by rw [hx, hxs])
termination_by structural x => x
end

instance : DecidableEq VtableOrigin := decEqVtableOrigin

/-- `typeck::vtable_param_res`: the selections for one type parameter. -/
abbrev VtableParamRes := List VtableOrigin

/-- `typeck::vtable_res`: per-parameter selection lists. -/
abbrev VtableRes := List VtableParamRes

mutual
/-- `MonoParamId`: one parameter of an instantiation identity — the
concrete type argument plus the identities of the selections resolved
for that position. -/
inductive MonoParamId where
  | mk : Ty → List MonoId → MonoParamId

/-- `MonoId`: the canonical key for one instantiation — the definition
reference plus the ordered parameter identities. -/
inductive MonoId where
  | mk : DefId → List MonoParamId → MonoId
end

/-- The `subst` field of a `MonoParamId`. -/
def MonoParamId.subst : MonoParamId → Ty
  | .mk s _ => s

/-- The `vtables` field of a `MonoParamId`. -/
def MonoParamId.vtables : MonoParamId → List MonoId
  | .mk _ v => v

/-- The `def` field of a `MonoId`. -/
def MonoId.def_ : MonoId → DefId
  | .mk d _ => d

/-- The `params` field of a `MonoId`. -/
def MonoId.params : MonoId → List MonoParamId
  | .mk _ p => p

mutual
def decEqMonoParamId : (a b : MonoParamId) → Decidable (a = b)
  | .mk s₁ v₁, .mk s₂ v₂ =>
    match decEq s₁ s₂ with
    | .isFalse h => .isFalse (by intro hc; cases hc; exact h rfl)
    | .isTrue hs =>
      match decEqListMonoId v₁ v₂ with
      | .isFalse h => .isFalse (by intro hc; cases hc; exact h rfl)
      | .isTrue hv => .isTrue (by rw [hs, hv])
termination_by structural x => x

def decEqMonoId : (a b : MonoId) → Decidable (a = b)
  | .mk d₁ p₁, .mk d₂ p₂ =>
    match decEq d₁ d₂ with
    | .isFalse h => .isFalse (by intro hc; cases hc; exact h rfl)
    | .isTrue hd =>
      match decEqListMonoParamId p₁ p₂ with
      | .isFalse h => .isFalse (by intro hc; cases hc; exact h rfl)
      | .isTrue hp => .isTrue (by rw [hd, hp])
termination_by structural x => x

def decEqListMonoId : (a b : List MonoId) → Decidable (a = b)
  | [], [] => .isTrue rfl
  | [], _ :: _ => .isFalse (by intro hc; cases hc)
  | _ :: _, [] => .isFalse (by intro hc; cases hc)
  | x :: xs, y :: ys =>
    match decEqMonoId x y with
    | .isFalse h => .isFalse (by intro hc; cases hc; exact h rfl)
    | .isTrue hx =>
      match decEqListMonoId xs ys with
      | .isFalse h => .isFalse (by intro hc; cases hc; exact h rfl)
      | .isTrue hxs => .isTrue (by rw [hx, hxs])
termination_by structural x => x

def decEqListMonoParamId : (a b : List MonoParamId) → Decidable (a = b)
  | [], [] => .isTrue rfl
  | [], _ :: _ => .isFalse (by intro hc; cases hc)
  | _ :: _, [] => .isFalse (by intro hc; cases hc)
  | x :: xs, y :: ys =>
    match decEqMonoParamId x y with
    | .isFalse h => .isFalse (by intro hc; cases hc; exact h rfl)
    | .isTrue hx =>
      match decEqListMonoParamId xs ys with
      | .isFalse h => .isFalse (by intro hc; cases hc; exact h rfl)
      | .isTrue hxs => .isTrue (by rw [hx, hxs])
termination_by structural x => x
end

instance : DecidableEq MonoParamId := decEqMonoParamId
instance : DecidableEq MonoId := decEqMonoId

/-- An emitted-code handle (`lib::llvm::ValueRef`), opaque. -/
abbrev Handle := Nat

/-- The abort conditions of the embedded code: a failed `assert!`, the
fatal recursion-limit diagnostic (`span_fatal`, carrying the span of the
definition being expanded), an internal-compiler `bug`/`fail!`, a failed
`session::expect` map lookup, and exhaustion of the modelling fuel. -/
inductive MFError where
  | assertionFailure : MFError
  | recursionLimit : Nat → MFError
  | bug : String → MFError
  | sessionExpectFailure : MFError
  | outOfFuel : MFError
deriving DecidableEq, Repr

mutual
/-- `make_vtable_id`: convert a resolved impl selection to a `MonoId`.
Only `vtable_static` converts; the impl's nested selections are zipped
against its own type arguments (truncating at the shorter list, and
ignoring the impl substitution's self type).  Any other variant is the
`fail!("make_vtable_id needs vtable_static")` panic. -/
def make_vtable_id : VtableOrigin → Except MFError MonoId
  | .vtable_static impl_id s sub_vtables => do
    let params ← zip_mono_param_ids sub_vtables s.tps
    pure (MonoId.mk impl_id params)
  | .vtable_param _ _ => .error (.bug "make_vtable_id needs vtable_static")
termination_by structural x => x

/-- The shared `iter().zip(...).map(|(vtable, subst)| MonoParamId { ... })`
computation of `monomorphic_fn` (lines 61-65) and `make_vtable_id`
(lines 338-344): pair each selection list with its type argument,
converting each selection with `make_vtable_id`. -/
def zip_mono_param_ids : List (List VtableOrigin) → List Ty →
    Except MFError (List MonoParamId)
  | [], _ => pure []
  | _ :: _, [] => pure []
  | v :: vs, t :: ts => do
    let vids ← vtable_ids v
    let rest ← zip_mono_param_ids vs ts
    pure (MonoParamId.mk t vids :: rest)
termination_by structural x => x

/-- `vtable.iter().map(|vt| make_vtable_id(ccx, vt)).collect()`. -/
def vtable_ids : List VtableOrigin → Except MFError (List MonoId)
  | [] => pure []
  | o :: os => do
    let i ← make_vtable_id o
    let rest ← vtable_ids os
    pure (i :: rest)
termination_by structural x => x
end

/-- One instantiation request: the arguments of `monomorphic_fn`. -/
structure Request where
  fn_id : DefId
  real_substs : substs
  vtables : Option VtableRes
  self_vtables : Option VtableParamRes
  ref_id : Option Nat
deriving DecidableEq, Repr

/-- Lines 55-71: build the parameter identities by zipping the selection
lists (self selections first, from `self_vtables.iter().chain(vts.iter())`)
against the type arguments (self type first, from
`real_substs.self_ty.iter().chain(real_substs.tps.iter())`); with no
selection data every parameter carries an empty selection list. -/
def mono_param_ids (req : Request) : Except MFError (List MonoParamId) :=
  let substs_iter := req.real_substs.self_ty.toList ++ req.real_substs.tps
  match req.vtables with
  | some vts => zip_mono_param_ids (req.self_vtables.toList ++ vts) substs_iter
  | none => pure (substs_iter.map fun s => MonoParamId.mk s [])

/-- Lines 73-76: the `MonoId` used for cache lookup and insertion. -/
def mono_hash_id (req : Request) : Except MFError MonoId := do
  let params ← mono_param_ids req
  pure (MonoId.mk req.fn_id params)

/-- `ast::variant_kind` as matched at lines 248-259. -/
inductive VariantKind where
  | TupleVariantKind : Nat → VariantKind
  | StructVariantKind : VariantKind
deriving DecidableEq, Repr

/-- `ast::TraitMethod`: a provided method (carrying whether its explicit
self is `SelfStatic` and its number of method-level type parameters,
`m.generics.ty_params.len()`), or a required (bodiless) one. -/
inductive TraitMethodKind where
  | Provided : Bool → Nat → TraitMethodKind
  | Required : TraitMethodKind
deriving DecidableEq, Repr

/-- The foreign ABI as tested at line 120. -/
inductive Abi where
  | RustIntrinsic : Abi
  | OtherAbi : Abi
deriving DecidableEq, Repr

/-- `ast_map::Node`: the resolved-node kinds matched by `monomorphic_fn`.
`NodeItem` records whether the item is an `ItemFn`; `NodeForeignItem`
carries its ABI; `NodeStructCtor` carries the optional `ctor_id`. -/
inductive MapNode where
  | NodeItem : Bool → MapNode
  | NodeForeignItem : Abi → MapNode
  | NodeVariant : VariantKind → MapNode
  | NodeMethod : MapNode
  | NodeTraitMethod : TraitMethodKind → MapNode
  | NodeStructCtor : Option Nat → MapNode
  | NodeExpr : MapNode
  | NodeStmt : MapNode
  | NodeArg : MapNode
  | NodeBlock : MapNode
  | NodePat : MapNode
  | NodeLocal : MapNode
  | NodeLifetime : MapNode
deriving DecidableEq, Repr

/-- The body-emission routines invoked by the dispatch match. -/
inductive Routine where
  | trans_fn : Routine
  | trans_intrinsic : Routine
  | trans_enum_variant : Routine
  | trans_tuple_struct : Routine
deriving DecidableEq, Repr

/-- Observable events of one execution, in order: a cache hit returning
the stored handle; the foreign-extern reuse of an existing item value
(`get_item_val`); a declaration allocation (`decl_internal_rust_fn`,
recording the substituted type and mangled symbol); a cache insertion;
the reuse of a simple-intrinsic declaration; and the invocation of a
body-emission routine on a declared handle. -/
inductive Event where
  | cacheHit : MonoId → Handle → Event
  | getItemVal : Nat → Handle → Event
  | alloc : Handle → Ty → Nat → Event
  | insert : MonoId → Handle → Event
  | simpleIntrinsic : Handle → Event
  | emitBody : Routine → DefId → Handle → Event
deriving DecidableEq

/-- The read-only collaborators of `monomorphic_fn`: the ast map, item
types (`ty::lookup_item_type`), `get_item_val`, the simple-intrinsic
table, the requests one instantiation's body emission issues (the
re-entrant `monomorphic_fn` calls made by `trans_fn` and friends, which
depend on the substitutions threaded in through `psubsts`), the
session recursion limit, span lookup, and the symbol mangler
(`exported_name` over the sip hash, abstracted to a number). -/
structure Env where
  map : Nat → Option MapNode
  item_ty : DefId → Ty
  get_item_val : Nat → Handle
  simple_intrinsic : Nat → Option Handle
  body : Request → List Request
  recursion_limit : Nat
  span : Nat → Nat
  exported_name : Nat → MonoId → Ty → Nat

/-- The mutable `CrateContext` state: the instantiation cache
(`ccx.monomorphized`, association list whose first match wins), the
recursion-depth table (`ccx.monomorphizing`), the `n_monos` statistic
and a fresh-handle supply for `decl_internal_rust_fn`. -/
structure CContext where
  monomorphized : List (MonoId × Handle)
  monomorphizing : List (DefId × Nat)
  n_monos : Nat
  next_handle : Handle
deriving DecidableEq

/-- `ccx.monomorphized.borrow().find(&id)`. -/
def mfind : List (MonoId × Handle) → MonoId → Option Handle
  | [], _ => none
  | (k, v) :: rest, id => if k = id then some v else mfind rest id

/-- `ccx.monomorphizing.borrow_mut().find(&fn_id)`. -/
def dfind : List (DefId × Nat) → DefId → Option Nat
  | [], _ => none
  | (k, v) :: rest, id => if k = id then some v else dfind rest id

/-- `HashMap::insert` observed through `find`: the new binding wins. -/
def dinsert (m : List (DefId × Nat)) (k : DefId) (v : Nat) : List (DefId × Nat) :=
  (k, v) :: m

/-- Lines 104-173: compute `mono_ty`.  For a static provided trait
method the substitution list is reshaped — split at
`real_substs.tps.len() - num_method_ty_params`, with
`real_substs.self_ty.unwrap()` reinserted at the split point — before
substituting into the declared item type; otherwise `real_substs` is
substituted directly. -/
def compute_mono_ty (env : Env) (req : Request) (map_node : MapNode) :
    Except MFError Ty :=
  let is_static_provided : Option Nat :=
    match map_node with
    | .NodeTraitMethod (.Provided selfStatic m) =>
        if selfStatic then some m else none
    | _ => none
  match is_static_provided with
  | none => pure (ty_subst req.real_substs (env.item_ty req.fn_id))
  | some num_method_ty_params =>
    match req.real_substs.self_ty with
    | none => .error (.bug "self_ty.unwrap on None")
    | some sty =>
      let idx := req.real_substs.tps.length - num_method_ty_params
      let tps := req.real_substs.tps.take idx ++ [sty] ++
        req.real_substs.tps.drop idx
      pure (ty_subst { regions := .ErasedRegions, self_ty := none,
                       tps := tps } (env.item_ty req.fn_id))

/-- Lines 206-212, `mk_lldecl`: allocate a declaration
(`decl_internal_rust_fn`) for the substituted type and mangled symbol,
and insert it into the instantiation cache under `hash_id`, before
returning it for body emission. -/
def mk_lldecl (ccx : CContext) (hash_id : MonoId) (mono_ty : Ty) (s : Nat) :
    Handle × CContext × List Event :=
  let lldecl := ccx.next_handle
  (lldecl,
   { ccx with
     next_handle := ccx.next_handle + 1,
     monomorphized := (hash_id, lldecl) :: ccx.monomorphized },
   [.alloc lldecl mono_ty s, .insert hash_id lldecl])

/-- The result of one `monomorphic_fn` call: the updated context, the
returned `ValueRef` and the returned boolean. -/
abbrev MFResult := Except MFError (CContext × Handle × Bool)

/-- Body emission re-entering `monomorphic_fn` (`mf`) on each request a
body issues, threading the context and concatenating event logs; an
abort propagates. -/
def trans_requests (mf : CContext → Request → MFResult × List Event) :
    CContext → List Request → Except MFError CContext × List Event
  | ccx, [] => (.ok ccx, [])
  | ccx, r :: rs =>
    match mf ccx r with
    | (.ok (c1, _, _), l1) =>
      let (res, l2) := trans_requests mf c1 rs
      (res, l1 ++ l2)
    | (.error e, l1) => (.error e, l1)

/-- Lines 119-124: a foreign item whose ABI is not `RustIntrinsic` is
returned through `get_item_val` without monomorphization. -/
def foreign_non_intrinsic : MapNode → Bool
  | .NodeForeignItem abi => decide (abi ≠ Abi.RustIntrinsic)
  | _ => false

/-- `monomorphic_fn`, fuel-bounded.  In source order: the entry
assertion on `real_substs.tps` (lines 49-51); the `MonoId` computation
(lines 55-76); the cache lookup with early hit return (lines 78-85); the
item-map lookup under `session::expect` (lines 108-116); the early
return for non-intrinsic foreign items (lines 119-124); `mono_ty`
computation with the static-provided reshaping (lines 141-173); the
`n_monos` bump (line 175); the recursion guard (lines 177-193); symbol
mangling (lines 195-203); the dispatch match (lines 214-306), each
fresh-emission branch allocating and caching its declaration via
`mk_lldecl` before invoking its emission routine (whose re-entrant
requests are the environment's `body` list); the depth-table restore to
the saved `depth` (line 308); and the final `(lldecl, false)` return
(line 311).  The enum-variant discriminant lookup (lines 243-245) and
the attribute/inline-hint calls have no observable effect here and are
elided. -/
def monomorphic_fn : Nat → Env → CContext → Request → MFResult × List Event
  | 0, _, _, _ => (.error .outOfFuel, [])
  | fuel + 1, env, ccx, req =>
    if ¬ (req.real_substs.tps.all fun t =>
        !type_needs_infer t && !type_has_params t) then
      (.error .assertionFailure, [])
    else
      match mono_hash_id req with
      | .error e => (.error e, [])
      | .ok hash_id =>
        match mfind ccx.monomorphized hash_id with
        | some val => (.ok (ccx, val, false), [.cacheHit hash_id val])
        | none =>
          match env.map req.fn_id.node with
          | none => (.error .sessionExpectFailure, [])
          | some map_node =>
            if foreign_non_intrinsic map_node then
              (.ok (ccx, env.get_item_val req.fn_id.node, true),
               [.getItemVal req.fn_id.node (env.get_item_val req.fn_id.node)])
            else
              match compute_mono_ty env req map_node with
              | .error e => (.error e, [])
              | .ok mono_ty =>
                let ccx1 := { ccx with n_monos := ccx.n_monos + 1 }
                let depth := (dfind ccx1.monomorphizing req.fn_id).getD 0
                if depth > env.recursion_limit then
                  (.error (.recursionLimit (env.span req.fn_id.node)), [])
                else
                  let mtab := dinsert ccx1.monomorphizing req.fn_id (depth + 1)
                  let ccx2 := { ccx1 with monomorphizing := mtab }
                  let s := env.exported_name req.fn_id.node hash_id mono_ty
                  let step : Except MFError (CContext × Handle) × List Event :=
                    match map_node with
                    | .NodeItem isItemFn =>
                      if isItemFn then
                        let (d, c, ev) := mk_lldecl ccx2 hash_id mono_ty s
                        match trans_requests (monomorphic_fn fuel env) c
                            (env.body req) with
                        | (.ok c2, l) =>
                          (.ok (c2, d),
                           ev ++ [.emitBody .trans_fn req.fn_id d] ++ l)
                        | (.error e, l) =>
                          (.error e,
                           ev ++ [.emitBody .trans_fn req.fn_id d] ++ l)
                      else
                        (.error (.bug "Cannot monomorphize this kind of item"),
                         [])
                    | .NodeForeignItem _ =>
                      match env.simple_intrinsic req.fn_id.node with
                      | some decl => (.ok (ccx2, decl), [.simpleIntrinsic decl])
                      | none =>
                        let (d, c, ev) := mk_lldecl ccx2 hash_id mono_ty s
                        match trans_requests (monomorphic_fn fuel env) c
                            (env.body req) with
                        | (.ok c2, l) =>
                          (.ok (c2, d),
                           ev ++ [.emitBody .trans_intrinsic req.fn_id d] ++ l)
                        | (.error e, l) =>
                          (.error e,
                           ev ++ [.emitBody .trans_intrinsic req.fn_id d] ++ l)
                    | .NodeVariant kind =>
                      let (d, c, ev) := mk_lldecl ccx2 hash_id mono_ty s
                      match kind with
                      | .TupleVariantKind _ =>
                        match trans_requests (monomorphic_fn fuel env) c
                            (env.body req) with
                        | (.ok c2, l) =>
                          (.ok (c2, d),
                           ev ++ [.emitBody .trans_enum_variant req.fn_id d]
                              ++ l)
                        | (.error e, l) =>
                          (.error e,
                           ev ++ [.emitBody .trans_enum_variant req.fn_id d]
                              ++ l)
                      | .StructVariantKind =>
                        (.error (.bug "cannot monomorphize struct variants"),
                         ev)
                    | .NodeMethod =>
                      let (d, c, ev) := mk_lldecl ccx2 hash_id mono_ty s
                      match trans_requests (monomorphic_fn fuel env) c
                          (env.body req) with
                      | (.ok c2, l) =>
                        (.ok (c2, d),
                         ev ++ [.emitBody .trans_fn req.fn_id d] ++ l)
                      | (.error e, l) =>
                        (.error e,
                         ev ++ [.emitBody .trans_fn req.fn_id d] ++ l)
                    | .NodeTraitMethod tm =>
                      match tm with
                      | .Provided _ _ =>
                        let (d, c, ev) := mk_lldecl ccx2 hash_id mono_ty s
                        match trans_requests (monomorphic_fn fuel env) c
                            (env.body req) with
                        | (.ok c2, l) =>
                          (.ok (c2, d),
                           ev ++ [.emitBody .trans_fn req.fn_id d] ++ l)
                        | (.error e, l) =>
                          (.error e,
                           ev ++ [.emitBody .trans_fn req.fn_id d] ++ l)
                      | .Required =>
                        (.error (.bug "cannot monomorphize a required method"),
                         [])
                    | .NodeStructCtor ctor =>
                      let (d, c, ev) := mk_lldecl ccx2 hash_id mono_ty s
                      match ctor with
                      | none =>
                        (.error
                          (.bug "ast-mapped tuple struct did not have a ctor id"),
                         ev)
                      | some _ =>
                        match trans_requests (monomorphic_fn fuel env) c
                            (env.body req) with
                        | (.ok c2, l) =>
                          (.ok (c2, d),
                           ev ++ [.emitBody .trans_tuple_struct req.fn_id d]
                              ++ l)
                        | (.error e, l) =>
                          (.error e,
                           ev ++ [.emitBody .trans_tuple_struct req.fn_id d]
                              ++ l)
                    | _ => (.error (.bug "cannot monomorphize this node"), [])
                  match step with
                  | (.ok (cAfter, lldecl), l) =>
                    let rtab := dinsert cAfter.monomorphizing req.fn_id depth
                    (.ok ({ cAfter with monomorphizing := rtab },
                      lldecl, false), l)
                  | (.error e, l) => (.error e, l)

/-- The empty compilation-unit state: cache and depth table created
empty when backend code generation begins. -/
def init_ccx : CContext :=
  { monomorphized := [], monomorphizing := [], n_monos := 0,
    next_handle := 0 }

/-- A whole compilation unit: the top-level instantiation requests
processed in order from the empty state. -/
def process_unit (fuel : Nat) (env : Env) (reqs : List Request) :
    Except MFError CContext × List Event :=
  trans_requests (monomorphic_fn fuel env) init_ccx reqs

/-! ## Basic lemmas about the cache and the depth table -/

/-- The `MonoId` keys of a cache. -/
def cacheKeys (c : List (MonoId × Handle)) : List MonoId := c.map Prod.fst

/-- The ids of the cache-insertion events of a log, in order. -/
def insertIds (l : List Event) : List MonoId :=
  l.filterMap fun e => match e with | .insert id _ => some id | _ => none

theorem mfind_eq_none_iff (c : List (MonoId × Handle)) (id : MonoId) :
    mfind c id = none ↔ id ∉ cacheKeys c := by
  induction c with
  | nil => simp [mfind, cacheKeys]
  | cons p rest ih =>
    obtain ⟨k, v⟩ := p
    by_cases hk : k = id
    · subst hk
      simp [mfind, cacheKeys]
    · simp [mfind, hk, cacheKeys, Ne.symm hk] at ih ⊢
      exact ih

theorem dfind_dinsert_self (m : List (DefId × Nat)) (k : DefId) (v : Nat) :
    dfind (dinsert m k v) k = some v := by
  simp [dfind, dinsert]

theorem insertIds_append (a b : List Event) :
    insertIds (a ++ b) = insertIds a ++ insertIds b := by
  simp [insertIds]

/-! ## The log grammar

Logs produced by the embedding are built from four constructions: the
empty log, a single non-emission event, a fresh-emission block
(allocation, then cache insertion, then body emission on the same
handle, followed by the nested log), and concatenation.  From this
grammar the ordering claim (allocation and insertion strictly precede
body emission) follows positionally. -/

/-- `e` is not a body-emission event. -/
def nonEmit (e : Event) : Prop := ∀ r d h, e ≠ Event.emitBody r d h

/-- The shape grammar of logs produced by the embedding. -/
inductive LogShape : List Event → Prop where
  | nil : LogShape []
  | single (e : Event) : nonEmit e → LogShape [e]
  | block (h : Handle) (ty : Ty) (s : Nat) (id : MonoId) (r : Routine)
      (d : DefId) (l : List Event) : LogShape l →
      LogShape ([.alloc h ty s, .insert id h, .emitBody r d h] ++ l)
  | append (a b : List Event) : LogShape a → LogShape b → LogShape (a ++ b)

theorem append_eq_append_cons {α : Type} (x : α) :
    ∀ (a l1 : List α) (b l2 : List α), a ++ b = l1 ++ x :: l2 →
    (∃ t, a = l1 ++ x :: t ∧ l2 = t ++ b) ∨
    (∃ p, l1 = a ++ p ∧ b = p ++ x :: l2) := by
  intro a
  induction a with
  | nil =>
    intro l1 b l2 h
    exact Or.inr ⟨l1, rfl, h⟩
  | cons y a ih =>
    intro l1 b l2 h
    cases l1 with
    | nil =>
      simp only [List.nil_append, List.cons_append, List.cons.injEq] at h
      obtain ⟨hy, ht⟩ := h
      exact Or.inl ⟨a, by simp [hy], ht.symm⟩
    | cons z l1 =>
      simp only [List.cons_append, List.cons.injEq] at h
      obtain ⟨hy, ht⟩ := h
      rcases ih l1 b l2 ht with ⟨t, h1, h2⟩ | ⟨p, h1, h2⟩
      · exact Or.inl ⟨t, by simp [hy, h1], h2⟩
      · exact Or.inr ⟨p, by simp [hy, h1], h2⟩

/-- Every body-emission event in a grammar-conforming log is directly
preceded by the allocation and the cache insertion of its handle. -/
theorem LogShape.emit_preceded {l : List Event} (hl : LogShape l) :
    ∀ l1 l2 r d h, l = l1 ++ Event.emitBody r d h :: l2 →
    ∃ l3 ty s id, l1 = l3 ++ [Event.alloc h ty s, Event.insert id h] := by
  induction hl with
  | nil =>
    intro l1 l2 r d h heq
    exact absurd heq (by simp)
  | single e he =>
    intro l1 l2 r d h heq
    cases l1 with
    | nil =>
      have h1 : e = Event.emitBody r d h ∧ l2 = [] := by simpa using heq
      exact absurd h1.1 (he r d h)
    | cons x l1 => simp at heq
  | block h0 ty0 s0 id0 r0 d0 l0 _ ih =>
    intro l1 l2 r d h heq
    match l1 with
    | [] => simp at heq
    | [_] => simp at heq
    | [_, _] =>
      simp only [List.cons_append, List.nil_append, List.cons.injEq] at heq
      obtain ⟨h1, h2, h3, -⟩ := heq
      obtain ⟨-, -, rfl⟩ := Event.emitBody.injEq _ _ _ _ _ _ ▸ h3.symm
      exact ⟨[], ty0, s0, id0, by rw [h1, h2]; rfl⟩
    | e1 :: e2 :: e3 :: l1 =>
      simp only [List.cons_append, List.nil_append, List.cons.injEq] at heq
      obtain ⟨rfl, rfl, rfl, heq⟩ := heq
      obtain ⟨l3, ty, s, id, hpre⟩ := ih l1 l2 r d h heq
      refine ⟨Event.alloc h0 ty0 s0 :: Event.insert id0 h0 ::
        Event.emitBody r0 d0 h0 :: l3, ty, s, id, ?_⟩
      simp [hpre]
  | append a b _ _ iha ihb =>
    intro l1 l2 r d h heq
    rcases append_eq_append_cons _ a l1 b l2 heq with
      ⟨t, h1, _⟩ | ⟨p, h1, h2⟩
    · exact iha l1 t r d h h1
    · obtain ⟨l3, ty, s, id, hpre⟩ := ihb p l2 r d h h2
      exact ⟨a ++ l3, ty, s, id, by simp [h1, hpre]⟩

/-! ## The master invariant

Every call inserts only ids that were absent from its starting cache,
never twice; on success the final cache is the starting cache extended
by exactly the logged insertions; and the log conforms to the shape
grammar. -/

/-- Invariant for one `monomorphic_fn` call from state `ccx`. -/
def CallOk (ccx : CContext) (res : MFResult) (log : List Event) : Prop :=
  (insertIds log).Nodup ∧
  (∀ id ∈ insertIds log, id ∉ cacheKeys ccx.monomorphized) ∧
  (∀ c h b, res = .ok (c, h, b) →
    cacheKeys c.monomorphized =
      (insertIds log).reverse ++ cacheKeys ccx.monomorphized) ∧
  LogShape log

/-- Invariant for one `trans_requests` run from state `ccx`. -/
def RunOk (ccx : CContext) (res : Except MFError CContext)
    (log : List Event) : Prop :=
  (insertIds log).Nodup ∧
  (∀ id ∈ insertIds log, id ∉ cacheKeys ccx.monomorphized) ∧
  (∀ c, res = .ok c →
    cacheKeys c.monomorphized =
      (insertIds log).reverse ++ cacheKeys ccx.monomorphized) ∧
  LogShape log

theorem trans_requests_runOk
    (mf : CContext → Request → MFResult × List Event)
    (hmf : ∀ c r, CallOk c (mf c r).1 (mf c r).2) :
    ∀ rs ccx, RunOk ccx (trans_requests mf ccx rs).1
      (trans_requests mf ccx rs).2 := by
  intro rs
  induction rs with
  | nil =>
    intro ccx
    refine ⟨by simp [trans_requests, insertIds], by simp [trans_requests, insertIds],
      ?_, by simpa [trans_requests] using LogShape.nil⟩
    intro c hc
    simp only [trans_requests] at hc
    cases hc
    simp [trans_requests, insertIds]
  | cons r rs ih =>
    intro ccx
    have h1 := hmf ccx r
    rcases hval : mf ccx r with ⟨res1, l1⟩
    rw [hval] at h1
    cases res1 with
    | error e =>
      obtain ⟨hnd, hdisj, _, hshape⟩ := h1
      refine ⟨?_, ?_, ?_, ?_⟩ <;> simp only [trans_requests, hval]
      · exact hnd
      · exact hdisj
      · intro c hc; cases hc
      · exact hshape
    | ok v =>
      obtain ⟨c1, h, b⟩ := v
      obtain ⟨hnd1, hdisj1, hevol1, hshape1⟩ := h1
      have hev1 := hevol1 c1 h b rfl
      have h2 := ih c1
      rcases hrest : trans_requests mf c1 rs with ⟨res2, l2⟩
      rw [hrest] at h2
      obtain ⟨hnd2, hdisj2, hevol2, hshape2⟩ := h2
      have hstep : trans_requests mf ccx (r :: rs) = (res2, l1 ++ l2) := by
        simp only [trans_requests, hval, hrest]
      rw [hstep]
      have hdisj2' : ∀ id ∈ insertIds l2, id ∉ cacheKeys ccx.monomorphized := by
        intro id hid
        have := hdisj2 id hid
        rw [hev1] at this
        intro hmem
        exact this (by simp [hmem])
      refine ⟨?_, ?_, ?_, LogShape.append _ _ hshape1 hshape2⟩
      · rw [insertIds_append, List.nodup_append]
        refine ⟨hnd1, hnd2, ?_⟩
        intro id hid1 hid2
        have := hdisj2 id hid2
        rw [hev1] at this
        exact this (by simp [hid1])
      · intro id hid
        rw [insertIds_append, List.mem_append] at hid
        rcases hid with hid | hid
        · exact hdisj1 id hid
        · exact hdisj2' id hid
      · intro c hc
        have := hevol2 c hc
        rw [this, hev1, insertIds_append]
        simp

/-! ## Unfolding lemmas for `monomorphic_fn` -/

@[simp] theorem insertIds_nil : insertIds [] = [] := rfl

@[simp] theorem insertIds_cons_cacheHit (id : MonoId) (h : Handle)
    (l : List Event) : insertIds (.cacheHit id h :: l) = insertIds l := rfl

@[simp] theorem insertIds_cons_getItemVal (n : Nat) (h : Handle)
    (l : List Event) : insertIds (.getItemVal n h :: l) = insertIds l := rfl

@[simp] theorem insertIds_cons_alloc (h : Handle) (ty : Ty) (s : Nat)
    (l : List Event) : insertIds (.alloc h ty s :: l) = insertIds l := rfl

@[simp] theorem insertIds_cons_insert (id : MonoId) (h : Handle)
    (l : List Event) : insertIds (.insert id h :: l) = id :: insertIds l := rfl

@[simp] theorem insertIds_cons_simpleIntrinsic (h : Handle) (l : List Event) :
    insertIds (.simpleIntrinsic h :: l) = insertIds l := rfl

@[simp] theorem insertIds_cons_emitBody (r : Routine) (d : DefId) (h : Handle)
    (l : List Event) : insertIds (.emitBody r d h :: l) = insertIds l := rfl

@[simp] theorem cacheKeys_nil : cacheKeys [] = [] := rfl

@[simp] theorem cacheKeys_cons (id : MonoId) (h : Handle)
    (c : List (MonoId × Handle)) :
    cacheKeys ((id, h) :: c) = id :: cacheKeys c := rfl

/-- The crate context after the `n_monos` bump, the depth-table
increment and `mk_lldecl` (allocation plus cache insertion), all on the
fresh-emission path. -/
def fresh_ctx (ccx : CContext) (fn_id : DefId) (hid : MonoId) : CContext :=
  { monomorphized := (hid, ccx.next_handle) :: ccx.monomorphized,
    monomorphizing := dinsert ccx.monomorphizing fn_id
      ((dfind ccx.monomorphizing fn_id).getD 0 + 1),
    n_monos := ccx.n_monos + 1,
    next_handle := ccx.next_handle + 1 }

/-- Line 308: restore the depth-table entry for `fn_id` to its pre-call
value. -/
def restore_ctx (c2 : CContext) (fn_id : DefId) (depth : Nat) : CContext :=
  { c2 with monomorphizing := dinsert c2.monomorphizing fn_id depth }

/-- The six fresh-emission dispatch branches (plain function item,
inherent method, provided trait method, tuple enum variant, tuple-struct
constructor, non-simple intrinsic), described by map node and emission
routine. -/
def emit_branch (node : MapNode) (R : Routine) : Prop :=
  (node = .NodeItem true ∧ R = .trans_fn) ∨
  (node = .NodeMethod ∧ R = .trans_fn) ∨
  (∃ b m, node = .NodeTraitMethod (.Provided b m) ∧ R = .trans_fn) ∨
  (∃ k, node = .NodeVariant (.TupleVariantKind k) ∧ R = .trans_enum_variant) ∨
  (∃ cid, node = .NodeStructCtor (some cid) ∧ R = .trans_tuple_struct)

theorem mono_fn_eq_emit (fuel : Nat) (env : Env) (ccx : CContext)
    (req : Request) (hid : MonoId) (node : MapNode) (R : Routine) (mty : Ty)
    (hA : (req.real_substs.tps.all fun t =>
      !type_needs_infer t && !type_has_params t) = true)
    (hhash : mono_hash_id req = .ok hid)
    (hmiss : mfind ccx.monomorphized hid = none)
    (hmap : env.map req.fn_id.node = some node)
    (hmty : compute_mono_ty env req node = .ok mty)
    (hguard : ¬ (dfind ccx.monomorphizing req.fn_id).getD 0 >
      env.recursion_limit)
    (hbr : emit_branch node R) :
    monomorphic_fn (fuel + 1) env ccx req =
      (match trans_requests (monomorphic_fn fuel env)
          (fresh_ctx ccx req.fn_id hid) (env.body req) with
       | (.ok c2, l) =>
         (.ok (restore_ctx c2 req.fn_id
             ((dfind ccx.monomorphizing req.fn_id).getD 0),
           ccx.next_handle, false),
          Event.alloc ccx.next_handle mty
              (env.exported_name req.fn_id.node hid mty) ::
            Event.insert hid ccx.next_handle ::
            Event.emitBody R req.fn_id ccx.next_handle :: l)
       | (.error e, l) =>
         (.error e,
          Event.alloc ccx.next_handle mty
              (env.exported_name req.fn_id.node hid mty) ::
            Event.insert hid ccx.next_handle ::
            Event.emitBody R req.fn_id ccx.next_handle :: l)) := by
  rcases htr : trans_requests (monomorphic_fn fuel env)
      (fresh_ctx ccx req.fn_id hid) (env.body req) with ⟨res2, l2⟩
  rcases hbr with ⟨rfl, rfl⟩ | ⟨rfl, rfl⟩ | ⟨b, m, rfl, rfl⟩ |
    ⟨k, rfl, rfl⟩ | ⟨cid, rfl, rfl⟩ <;>
  rw [show (fresh_ctx ccx req.fn_id hid) =
      { monomorphized := (hid, ccx.next_handle) :: ccx.monomorphized,
        monomorphizing := (req.fn_id,
          (dfind ccx.monomorphizing req.fn_id).getD 0 + 1) ::
          ccx.monomorphizing,
        n_monos := ccx.n_monos + 1,
        next_handle := ccx.next_handle + 1 } from rfl] at htr <;>
  cases res2 <;>
  simp [monomorphic_fn, hA, hhash, hmiss, hmap, hmty, hguard, htr,
    mk_lldecl, dinsert, fresh_ctx, restore_ctx, foreign_non_intrinsic]

theorem mono_fn_eq_emit_intrinsic (fuel : Nat) (env : Env) (ccx : CContext)
    (req : Request) (hid : MonoId) (mty : Ty)
    (hA : (req.real_substs.tps.all fun t =>
      !type_needs_infer t && !type_has_params t) = true)
    (hhash : mono_hash_id req = .ok hid)
    (hmiss : mfind ccx.monomorphized hid = none)
    (hmap : env.map req.fn_id.node = some (.NodeForeignItem .RustIntrinsic))
    (hsi : env.simple_intrinsic req.fn_id.node = none)
    (hmty : compute_mono_ty env req (.NodeForeignItem .RustIntrinsic) =
      .ok mty)
    (hguard : ¬ (dfind ccx.monomorphizing req.fn_id).getD 0 >
      env.recursion_limit) :
    monomorphic_fn (fuel + 1) env ccx req =
      (match trans_requests (monomorphic_fn fuel env)
          (fresh_ctx ccx req.fn_id hid) (env.body req) with
       | (.ok c2, l) =>
         (.ok (restore_ctx c2 req.fn_id
             ((dfind ccx.monomorphizing req.fn_id).getD 0),
           ccx.next_handle, false),
          Event.alloc ccx.next_handle mty
              (env.exported_name req.fn_id.node hid mty) ::
            Event.insert hid ccx.next_handle ::
            Event.emitBody .trans_intrinsic req.fn_id ccx.next_handle :: l)
       | (.error e, l) =>
         (.error e,
          Event.alloc ccx.next_handle mty
              (env.exported_name req.fn_id.node hid mty) ::
            Event.insert hid ccx.next_handle ::
            Event.emitBody .trans_intrinsic req.fn_id ccx.next_handle :: l))
    := by
  rcases htr : trans_requests (monomorphic_fn fuel env)
      (fresh_ctx ccx req.fn_id hid) (env.body req) with ⟨res2, l2⟩
  rw [show (fresh_ctx ccx req.fn_id hid) =
      { monomorphized := (hid, ccx.next_handle) :: ccx.monomorphized,
        monomorphizing := (req.fn_id,
          (dfind ccx.monomorphizing req.fn_id).getD 0 + 1) ::
          ccx.monomorphizing,
        n_monos := ccx.n_monos + 1,
        next_handle := ccx.next_handle + 1 } from rfl] at htr
  cases res2 <;>
  simp [monomorphic_fn, hA, hhash, hmiss, hmap, hsi, hmty, hguard, htr,
    mk_lldecl, dinsert, fresh_ctx, restore_ctx, foreign_non_intrinsic]

/-- Lines 78-85: a cache hit returns the cached handle immediately,
with `false`, leaving the context untouched and performing no work. -/
theorem mono_fn_eq_hit (fuel : Nat) (env : Env) (ccx : CContext)
    (req : Request) (hid : MonoId) (val : Handle)
    (hA : (req.real_substs.tps.all fun t =>
      !type_needs_infer t && !type_has_params t) = true)
    (hhash : mono_hash_id req = .ok hid)
    (hhit : mfind ccx.monomorphized hid = some val) :
    monomorphic_fn (fuel + 1) env ccx req =
      (.ok (ccx, val, false), [.cacheHit hid val]) := by
  simp [monomorphic_fn, hA, hhash, hhit]

/-- Lines 49-51: a non-concrete type argument in `real_substs.tps` fails
the entry assertion before any other work. -/
theorem mono_fn_eq_assert (fuel : Nat) (env : Env) (ccx : CContext)
    (req : Request)
    (hA : (req.real_substs.tps.all fun t =>
      !type_needs_infer t && !type_has_params t) = false) :
    monomorphic_fn (fuel + 1) env ccx req =
      (.error .assertionFailure, []) := by
  simp [monomorphic_fn, hA]

/-- Lines 177-193: when the recursion depth exceeds the session limit,
the call aborts with the fatal diagnostic at the definition's span. -/
theorem mono_fn_eq_reclimit (fuel : Nat) (env : Env) (ccx : CContext)
    (req : Request) (hid : MonoId) (node : MapNode) (mty : Ty)
    (hA : (req.real_substs.tps.all fun t =>
      !type_needs_infer t && !type_has_params t) = true)
    (hhash : mono_hash_id req = .ok hid)
    (hmiss : mfind ccx.monomorphized hid = none)
    (hmap : env.map req.fn_id.node = some node)
    (hfi : foreign_non_intrinsic node = false)
    (hmty : compute_mono_ty env req node = .ok mty)
    (hguard : (dfind ccx.monomorphizing req.fn_id).getD 0 >
      env.recursion_limit) :
    monomorphic_fn (fuel + 1) env ccx req =
      (.error (.recursionLimit (env.span req.fn_id.node)), []) := by
  simp [monomorphic_fn, hA, hhash, hmiss, hmap, hfi, hmty, hguard]

/-- The context after a simple-intrinsic dispatch: `n_monos` bumped and
the depth-table entry incremented and then restored; the cache is
untouched because `mk_lldecl` is never called on this path. -/
def simple_ctx (ccx : CContext) (fn_id : DefId) : CContext :=
  { ccx with
    n_monos := ccx.n_monos + 1,
    monomorphizing := dinsert
      (dinsert ccx.monomorphizing fn_id
        ((dfind ccx.monomorphizing fn_id).getD 0 + 1)) fn_id
      ((dfind ccx.monomorphizing fn_id).getD 0) }

/-- Lines 231-241: an intrinsic with a simple lowering returns that
declaration without inserting anything into the instantiation cache,
and the final return (line 311) carries `false`. -/
theorem mono_fn_eq_simple (fuel : Nat) (env : Env) (ccx : CContext)
    (req : Request) (hid : MonoId) (decl : Handle) (mty : Ty)
    (hA : (req.real_substs.tps.all fun t =>
      !type_needs_infer t && !type_has_params t) = true)
    (hhash : mono_hash_id req = .ok hid)
    (hmiss : mfind ccx.monomorphized hid = none)
    (hmap : env.map req.fn_id.node = some (.NodeForeignItem .RustIntrinsic))
    (hsi : env.simple_intrinsic req.fn_id.node = some decl)
    (hmty : compute_mono_ty env req (.NodeForeignItem .RustIntrinsic) =
      .ok mty)
    (hguard : ¬ (dfind ccx.monomorphizing req.fn_id).getD 0 >
      env.recursion_limit) :
    monomorphic_fn (fuel + 1) env ccx req =
      (.ok (simple_ctx ccx req.fn_id, decl, false),
       [.simpleIntrinsic decl]) := by
  simp [monomorphic_fn, hA, hhash, hmiss, hmap, hsi, hmty, hguard,
    foreign_non_intrinsic, simple_ctx, dinsert]

/-- Lines 119-124: a foreign item with a non-intrinsic ABI returns the
existing item value with `true`, touching nothing. -/
theorem mono_fn_eq_foreign (fuel : Nat) (env : Env) (ccx : CContext)
    (req : Request) (hid : MonoId) (node : MapNode)
    (hA : (req.real_substs.tps.all fun t =>
      !type_needs_infer t && !type_has_params t) = true)
    (hhash : mono_hash_id req = .ok hid)
    (hmiss : mfind ccx.monomorphized hid = none)
    (hmap : env.map req.fn_id.node = some node)
    (hfi : foreign_non_intrinsic node = true) :
    monomorphic_fn (fuel + 1) env ccx req =
      (.ok (ccx, env.get_item_val req.fn_id.node, true),
       [.getItemVal req.fn_id.node (env.get_item_val req.fn_id.node)]) := by
  simp [monomorphic_fn, hA, hhash, hmiss, hmap, hfi]

/-! ## The master invariant holds for every call -/

theorem CallOk_error_flat (ccx : CContext) (e : MFError) (log : List Event)
    (hins : insertIds log = []) (hshape : LogShape log) :
    CallOk ccx (.error e) log := by
  refine ⟨by simp [hins], by simp [hins], ?_, hshape⟩
  intro c h b heq
  cases heq

theorem CallOk_no_insert (ccx : CContext) (res : MFResult) (log : List Event)
    (hins : insertIds log = [])
    (hres : ∀ c h b, res = .ok (c, h, b) →
      c.monomorphized = ccx.monomorphized)
    (hshape : LogShape log) : CallOk ccx res log := by
  refine ⟨by simp [hins], by simp [hins], ?_, hshape⟩
  intro c h b heq
  rw [hres c h b heq, hins]
  simp

theorem nonEmit_alloc (h : Handle) (ty : Ty) (s : Nat) :
    nonEmit (.alloc h ty s) := by intro r d hh; simp
theorem nonEmit_insert (id : MonoId) (h : Handle) :
    nonEmit (.insert id h) := by intro r d hh; simp
theorem nonEmit_cacheHit (id : MonoId) (h : Handle) :
    nonEmit (.cacheHit id h) := by intro r d hh; simp
theorem nonEmit_getItemVal (n : Nat) (h : Handle) :
    nonEmit (.getItemVal n h) := by intro r d hh; simp
theorem nonEmit_simpleIntrinsic (h : Handle) :
    nonEmit (.simpleIntrinsic h) := by intro r d hh; simp

theorem CallOk_bug_insert (ccx : CContext) (e : MFError) (hid : MonoId)
    (d : Handle) (mty : Ty) (s : Nat)
    (hmiss : mfind ccx.monomorphized hid = none) :
    CallOk ccx (.error e) [Event.alloc d mty s, Event.insert hid d] := by
  have hm := (mfind_eq_none_iff _ _).mp hmiss
  refine ⟨by simp, by simpa using hm, ?_, ?_⟩
  · intro c h b heq
    cases heq
  · exact LogShape.append [Event.alloc d mty s] [Event.insert hid d]
      (LogShape.single _ (nonEmit_alloc d mty s))
      (LogShape.single _ (nonEmit_insert hid d))

theorem CallOk_fresh_ok (ccx cF c2 : CContext) (hid : MonoId) (d : Handle)
    (mty : Ty) (s : Nat) (R : Routine) (fd : DefId) (depth : Nat)
    (l2 : List Event)
    (hmiss : mfind ccx.monomorphized hid = none)
    (hcF : cF.monomorphized = (hid, d) :: ccx.monomorphized)
    (hrun : RunOk cF (.ok c2) l2) :
    CallOk ccx (.ok (restore_ctx c2 fd depth, d, false))
      (Event.alloc d mty s :: Event.insert hid d ::
        Event.emitBody R fd d :: l2) := by
  obtain ⟨hnd, hdisj, hevol, hshape⟩ := hrun
  have hm := (mfind_eq_none_iff _ _).mp hmiss
  refine ⟨?_, ?_, ?_, ?_⟩
  · simp only [insertIds_cons_alloc, insertIds_cons_insert,
      insertIds_cons_emitBody, List.nodup_cons]
    refine ⟨?_, hnd⟩
    intro hmem
    have := hdisj hid hmem
    rw [hcF] at this
    simp at this
  · intro id hmem
    simp only [insertIds_cons_alloc, insertIds_cons_insert,
      insertIds_cons_emitBody, List.mem_cons] at hmem
    rcases hmem with rfl | hmem
    · exact hm
    · have := hdisj id hmem
      rw [hcF] at this
      simp only [cacheKeys_cons, List.mem_cons] at this
      intro hc
      exact this (Or.inr hc)
  · intro c h b heq
    cases heq
    have h2 := hevol c2 rfl
    rw [hcF] at h2
    simp only [restore_ctx, insertIds_cons_alloc, insertIds_cons_insert,
      insertIds_cons_emitBody]
    rw [h2]
    simp
  · exact LogShape.block d mty s hid R fd l2 hshape

theorem CallOk_fresh_error (ccx cF : CContext) (e : MFError) (hid : MonoId)
    (d : Handle) (mty : Ty) (s : Nat) (R : Routine) (fd : DefId)
    (res2 : Except MFError CContext) (l2 : List Event)
    (hmiss : mfind ccx.monomorphized hid = none)
    (hcF : cF.monomorphized = (hid, d) :: ccx.monomorphized)
    (hrun : RunOk cF res2 l2) :
    CallOk ccx (.error e)
      (Event.alloc d mty s :: Event.insert hid d ::
        Event.emitBody R fd d :: l2) := by
  obtain ⟨hnd, hdisj, _, hshape⟩ := hrun
  have hm := (mfind_eq_none_iff _ _).mp hmiss
  refine ⟨?_, ?_, ?_, ?_⟩
  · simp only [insertIds_cons_alloc, insertIds_cons_insert,
      insertIds_cons_emitBody, List.nodup_cons]
    refine ⟨?_, hnd⟩
    intro hmem
    have := hdisj hid hmem
    rw [hcF] at this
    simp at this
  · intro id hmem
    simp only [insertIds_cons_alloc, insertIds_cons_insert,
      insertIds_cons_emitBody, List.mem_cons] at hmem
    rcases hmem with rfl | hmem
    · exact hm
    · have := hdisj id hmem
      rw [hcF] at this
      simp only [cacheKeys_cons, List.mem_cons] at this
      intro hc
      exact this (Or.inr hc)
  · intro c h b heq
    cases heq
  · exact LogShape.block d mty s hid R fd l2 hshape

theorem monomorphic_fn_callOk (fuel : Nat) :
    ∀ (env : Env) (ccx : CContext) (req : Request),
      CallOk ccx (monomorphic_fn fuel env ccx req).1
        (monomorphic_fn fuel env ccx req).2 := by
  induction fuel with
  | zero =>
    intro env ccx req
    simp only [monomorphic_fn]
    exact CallOk_error_flat _ _ _ rfl LogShape.nil
  | succ fuel ih =>
    intro env ccx req
    by_cases hA : (req.real_substs.tps.all fun t =>
        !type_needs_infer t && !type_has_params t) = true
    case neg =>
      simp only [monomorphic_fn, hA, Bool.false_eq_true, not_false_eq_true,
        if_true]
      exact CallOk_error_flat _ _ _ rfl LogShape.nil
    rcases hhash : mono_hash_id req with e | hid
    · simp [monomorphic_fn, hA, hhash]
      exact CallOk_error_flat _ _ _ rfl LogShape.nil
    rcases hmiss : mfind ccx.monomorphized hid with _ | val
    rotate_left
    · simp [monomorphic_fn, hA, hhash, hmiss]
      refine CallOk_no_insert _ _ _ rfl ?_
        (LogShape.single _ (nonEmit_cacheHit hid val))
      intro c h b heq
      cases heq
      rfl
    rcases hmap : env.map req.fn_id.node with _ | node
    · simp [monomorphic_fn, hA, hhash, hmiss, hmap]
      exact CallOk_error_flat _ _ _ rfl LogShape.nil
    by_cases hfi : foreign_non_intrinsic node = true
    case pos =>
      simp [monomorphic_fn, hA, hhash, hmiss, hmap, hfi]
      refine CallOk_no_insert _ _ _ rfl ?_
        (LogShape.single _ (nonEmit_getItemVal req.fn_id.node
          (env.get_item_val req.fn_id.node)))
      intro c h b heq
      cases heq
      rfl
    rcases hmty : compute_mono_ty env req node with e | mty
    · simp [monomorphic_fn, hA, hhash, hmiss, hmap, hfi, hmty]
      exact CallOk_error_flat _ _ _ rfl LogShape.nil
    by_cases hguard : (dfind ccx.monomorphizing req.fn_id).getD 0 >
      env.recursion_limit
    case pos =>
      simp [monomorphic_fn, hA, hhash, hmiss, hmap, hfi, hmty, hguard]
      exact CallOk_error_flat _ _ _ rfl LogShape.nil
    have hrunAll := trans_requests_runOk (monomorphic_fn fuel env)
      (fun c r => ih env c r) (env.body req) (fresh_ctx ccx req.fn_id hid)
    have hcF : (fresh_ctx ccx req.fn_id hid).monomorphized =
      (hid, ccx.next_handle) :: ccx.monomorphized := rfl
    have emit_case : ∀ (R : Routine), emit_branch node R →
        CallOk ccx (monomorphic_fn (fuel + 1) env ccx req).1
          (monomorphic_fn (fuel + 1) env ccx req).2 := by
      intro R hbr
      rw [mono_fn_eq_emit fuel env ccx req hid node R mty hA hhash hmiss
        hmap hmty hguard hbr]
      rcases htr : trans_requests (monomorphic_fn fuel env)
          (fresh_ctx ccx req.fn_id hid) (env.body req) with ⟨res2, l2⟩
      rw [htr] at hrunAll
      cases res2 with
      | ok c2 =>
        exact CallOk_fresh_ok ccx _ c2 hid ccx.next_handle mty _ R req.fn_id
          _ l2 hmiss hcF hrunAll
      | error e =>
        exact CallOk_fresh_error ccx _ e hid ccx.next_handle mty _ R
          req.fn_id _ l2 hmiss hcF hrunAll
    cases node with
    | NodeItem isFn =>
      cases isFn with
      | true => exact emit_case .trans_fn (Or.inl ⟨rfl, rfl⟩)
      | false =>
        simp [monomorphic_fn, hA, hhash, hmiss, hmap, hfi, hmty, hguard]
        exact CallOk_error_flat _ _ _ rfl LogShape.nil
    | NodeForeignItem abi =>
      cases abi with
      | OtherAbi => simp [foreign_non_intrinsic] at hfi
      | RustIntrinsic =>
        rcases hsi : env.simple_intrinsic req.fn_id.node with _ | decl
        rotate_left
        · simp [monomorphic_fn, hA, hhash, hmiss, hmap, hfi, hmty, hguard,
            hsi, foreign_non_intrinsic, mk_lldecl, dinsert]
          refine CallOk_no_insert _ _ _ rfl ?_
            (LogShape.single _ (nonEmit_simpleIntrinsic decl))
          intro c h b heq
          cases heq
          rfl
        rw [mono_fn_eq_emit_intrinsic fuel env ccx req hid mty hA hhash
          hmiss hmap hsi hmty hguard]
        rcases htr : trans_requests (monomorphic_fn fuel env)
            (fresh_ctx ccx req.fn_id hid) (env.body req) with ⟨res2, l2⟩
        rw [htr] at hrunAll
        cases res2 with
        | ok c2 =>
          exact CallOk_fresh_ok ccx _ c2 hid ccx.next_handle mty _
            .trans_intrinsic req.fn_id _ l2 hmiss hcF hrunAll
        | error e =>
          exact CallOk_fresh_error ccx _ e hid ccx.next_handle mty _
            .trans_intrinsic req.fn_id _ l2 hmiss hcF hrunAll
    | NodeVariant kind =>
      cases kind with
      | TupleVariantKind k =>
        exact emit_case .trans_enum_variant
          (Or.inr (Or.inr (Or.inr (Or.inl ⟨k, rfl, rfl⟩))))
      | StructVariantKind =>
        simp [monomorphic_fn, hA, hhash, hmiss, hmap, hfi, hmty, hguard,
          mk_lldecl, dinsert]
        exact CallOk_bug_insert ccx _ hid ccx.next_handle mty _ hmiss
    | NodeMethod => exact emit_case .trans_fn (Or.inr (Or.inl ⟨rfl, rfl⟩))
    | NodeTraitMethod tm =>
      cases tm with
      | Provided b m =>
        exact emit_case .trans_fn
          (Or.inr (Or.inr (Or.inl ⟨b, m, rfl, rfl⟩)))
      | Required =>
        simp [monomorphic_fn, hA, hhash, hmiss, hmap, hfi, hmty, hguard]
        exact CallOk_error_flat _ _ _ rfl LogShape.nil
    | NodeStructCtor ctor =>
      cases ctor with
      | some cid =>
        exact emit_case .trans_tuple_struct
          (Or.inr (Or.inr (Or.inr (Or.inr ⟨cid, rfl, rfl⟩))))
      | none =>
        simp [monomorphic_fn, hA, hhash, hmiss, hmap, hfi, hmty, hguard,
          mk_lldecl, dinsert]
        exact CallOk_bug_insert ccx _ hid ccx.next_handle mty _ hmiss
    | NodeExpr =>
      simp [monomorphic_fn, hA, hhash, hmiss, hmap, hfi, hmty, hguard]
      exact CallOk_error_flat _ _ _ rfl LogShape.nil
    | NodeStmt =>
      simp [monomorphic_fn, hA, hhash, hmiss, hmap, hfi, hmty, hguard]
      exact CallOk_error_flat _ _ _ rfl LogShape.nil
    | NodeArg =>
      simp [monomorphic_fn, hA, hhash, hmiss, hmap, hfi, hmty, hguard]
      exact CallOk_error_flat _ _ _ rfl LogShape.nil
    | NodeBlock =>
      simp [monomorphic_fn, hA, hhash, hmiss, hmap, hfi, hmty, hguard]
      exact CallOk_error_flat _ _ _ rfl LogShape.nil
    | NodePat =>
      simp [monomorphic_fn, hA, hhash, hmiss, hmap, hfi, hmty, hguard]
      exact CallOk_error_flat _ _ _ rfl LogShape.nil
    | NodeLocal =>
      simp [monomorphic_fn, hA, hhash, hmiss, hmap, hfi, hmty, hguard]
      exact CallOk_error_flat _ _ _ rfl LogShape.nil
    | NodeLifetime =>
      simp [monomorphic_fn, hA, hhash, hmiss, hmap, hfi, hmty, hguard]
      exact CallOk_error_flat _ _ _ rfl LogShape.nil

/-! ## Concrete environments used by claims and witnesses -/

/-- A trivial environment whose map resolves node 1 to a plain `ItemFn`
item of declared type `param 0`, with empty bodies: the `id<T>` example
of the specification. -/
def id_env : Env :=
  { map := fun n => if n = 1 then some (.NodeItem true) else none,
    item_ty := fun _ => .param 0,
    get_item_val := fun _ => 100,
    simple_intrinsic := fun _ => none,
    body := fun _ => [],
    recursion_limit := 64,
    span := fun n => n,
    exported_name := fun _ _ _ => 7 }

/-- The `id<T>` definition reference. -/
def idf : DefId := ⟨0, 1⟩

/-- `id::<Int32>` with no implementation selections. -/
def id_req : Request :=
  { fn_id := idf,
    real_substs := { regions := .ErasedRegions, self_ty := none,
                     tps := [.int] },
    vtables := none, self_vtables := none, ref_id := none }

/-- The `MonoId` of `id::<Int32>`. -/
def id_hash : MonoId := MonoId.mk idf [MonoParamId.mk .int []]

/-! ## C8: `make_vtable_id` accepts only `vtable_static` -/

/-- C8: `make_vtable_id` produces a `MonoId` only for the statically
resolved selection variant; every other variant fails loudly with the
`fail!("make_vtable_id needs vtable_static")` contract violation. -/
theorem C8_theorem :
    (∀ (a b : Nat), make_vtable_id (.vtable_param a b) =
      .error (.bug "make_vtable_id needs vtable_static")) ∧
    (∀ (o : VtableOrigin) (id : MonoId), make_vtable_id o = .ok id →
      ∃ impl_id s sub_vtables, o = .vtable_static impl_id s sub_vtables) := by
  constructor
  · intro a b
    rfl
  · intro o id h
    cases o with
    | vtable_static i sb sv => exact ⟨i, sb, sv, rfl⟩
    | vtable_param a b => simp [make_vtable_id] at h

/-- C8 witness: a concrete static selection converts, and the theorem
recovers its shape. -/
theorem C8_witness :
    make_vtable_id (.vtable_static ⟨0, 9⟩
        ⟨.ErasedRegions, none, []⟩ []) = .ok (MonoId.mk ⟨0, 9⟩ []) ∧
    (∃ impl_id s sub_vtables,
      (VtableOrigin.vtable_static ⟨0, 9⟩ ⟨.ErasedRegions, none, []⟩ []) =
        .vtable_static impl_id s sub_vtables) :=
  ⟨rfl, C8_theorem.2 (.vtable_static ⟨0, 9⟩ ⟨.ErasedRegions, none, []⟩ [])
    (MonoId.mk ⟨0, 9⟩ []) rfl⟩

/-! ## C5: selection sensitivity of the identity -/

/-- An impl selection whose own substitution has no type parameters but
which carries a nested sub-selection: the defensive zip of
`make_vtable_id` truncates the sub-selection away. -/
def o_deep (sub : DefId) : VtableOrigin :=
  .vtable_static ⟨0, 10⟩ ⟨.ErasedRegions, none, []⟩
    [[.vtable_static sub ⟨.ErasedRegions, none, []⟩ []]]

/-- A request over one concrete argument whose selection tree is
`o_deep sub`. -/
def c5_req (sub : DefId) : Request :=
  { fn_id := ⟨0, 1⟩,
    real_substs := { regions := .ErasedRegions, self_ty := none,
                     tps := [.int] },
    vtables := some [[o_deep sub]], self_vtables := none, ref_id := none }

/-- C5 counterexample: two requests with identical definition reference
and identical type arguments whose resolved selection trees differ at
depth one nevertheless receive the same `MonoId` — the nested
sub-selections are zipped against the impl's empty `tps` and vanish. -/
theorem C5_counterexample :
    c5_req ⟨0, 11⟩ ≠ c5_req ⟨0, 12⟩ ∧
    (c5_req ⟨0, 11⟩).vtables ≠ (c5_req ⟨0, 12⟩).vtables ∧
    (c5_req ⟨0, 11⟩).fn_id = (c5_req ⟨0, 12⟩).fn_id ∧
    (c5_req ⟨0, 11⟩).real_substs = (c5_req ⟨0, 12⟩).real_substs ∧
    mono_hash_id (c5_req ⟨0, 11⟩) =
      .ok (MonoId.mk ⟨0, 1⟩ [MonoParamId.mk .int [MonoId.mk ⟨0, 10⟩ []]]) ∧
    mono_hash_id (c5_req ⟨0, 11⟩) = mono_hash_id (c5_req ⟨0, 12⟩) :=
  ⟨by decide, by decide, rfl, rfl, rfl, rfl⟩

/-- C5 amended: with the same definition reference, the computed
`MonoId`s are unequal exactly when the zipped, converted parameter
identities differ; differences the defensive zip truncates away do not
separate the identities. -/
theorem C5_theorem (req1 req2 : Request) (ps1 ps2 : List MonoParamId)
    (hfn : req1.fn_id = req2.fn_id)
    (h1 : mono_param_ids req1 = .ok ps1)
    (h2 : mono_param_ids req2 = .ok ps2) :
    mono_hash_id req1 = mono_hash_id req2 ↔ ps1 = ps2 := by
  have e1 : mono_hash_id req1 = .ok (MonoId.mk req1.fn_id ps1) := by
    unfold mono_hash_id
    rw [h1]
    rfl
  have e2 : mono_hash_id req2 = .ok (MonoId.mk req2.fn_id ps2) := by
    unfold mono_hash_id
    rw [h2]
    rfl
  rw [e1, e2, hfn]
  constructor
  · intro h
    have h3 := Except.ok.inj h
    rw [MonoId.mk.injEq] at h3
    exact h3.2
  · intro h
    rw [h]

/-- C5 witness: the amended iff applied to the counterexample pair. -/
theorem C5_witness :
    mono_hash_id (c5_req ⟨0, 11⟩) = mono_hash_id (c5_req ⟨0, 12⟩) :=
  (C5_theorem (c5_req ⟨0, 11⟩) (c5_req ⟨0, 12⟩)
    [MonoParamId.mk .int [MonoId.mk ⟨0, 10⟩ []]]
    [MonoParamId.mk .int [MonoId.mk ⟨0, 10⟩ []]]
    rfl rfl rfl).mpr rfl

/-! ## C7: the entry assertion covers only `real_substs.tps` -/

/-- An environment with an empty map (never consulted on the paths the
C7 theorems exercise). -/
def c7_env : Env :=
  { map := fun _ => none,
    item_ty := fun _ => .int,
    get_item_val := fun _ => 0,
    simple_intrinsic := fun _ => none,
    body := fun _ => [],
    recursion_limit := 64,
    span := fun n => n,
    exported_name := fun _ _ _ => 0 }

/-- A request whose self-type prefix contains a free type parameter but
whose `tps` list is fully concrete. -/
def c7_req : Request :=
  { fn_id := ⟨0, 1⟩,
    real_substs := { regions := .ErasedRegions, self_ty := some (.param 0),
                     tps := [] },
    vtables := none, self_vtables := none, ref_id := none }

/-- The identity of `c7_req`, with the self type at position 0. -/
def c7_id : MonoId := MonoId.mk ⟨0, 1⟩ [MonoParamId.mk (.param 0) []]

/-- A context whose cache already holds `c7_id`. -/
def c7_ccx : CContext :=
  { monomorphized := [(c7_id, 7)], monomorphizing := [], n_monos := 0,
    next_handle := 0 }

/-- C7 counterexample: a request whose optional self-type prefix
contains a free type parameter passes the entry assertion (the
assertion iterates over `real_substs.tps` only) and the call proceeds
normally — no assertion failure is raised. -/
theorem C7_counterexample :
    type_has_params (Ty.param 0) = true ∧
    c7_req.real_substs.self_ty = some (.param 0) ∧
    monomorphic_fn 1 c7_env c7_ccx c7_req =
      (.ok (c7_ccx, 7, false), [.cacheHit c7_id 7]) :=
  ⟨rfl, rfl, by rfl⟩

/-- C7 amended: the entry assertion covers exactly the `tps` list — any
type in `real_substs.tps` with an unresolved inference variable or a
free type parameter aborts the call as a contract failure before any
other work; the optional self-type prefix is not checked. -/
theorem C7_theorem (fuel : Nat) (env : Env) (ccx : CContext)
    (req : Request) (t : Ty) (ht : t ∈ req.real_substs.tps)
    (hbad : type_needs_infer t = true ∨ type_has_params t = true) :
    monomorphic_fn (fuel + 1) env ccx req =
      (.error .assertionFailure, []) := by
  apply mono_fn_eq_assert
  rw [List.all_eq_false]
  refine ⟨t, ht, ?_⟩
  rcases hbad with h | h <;> simp [h]

/-- C7 witness: a concrete inference variable in `tps` trips the
assertion. -/
theorem C7_witness :
    (Ty.infervar 0) ∈
      ({ fn_id := ⟨0, 1⟩,
         real_substs := { regions := .ErasedRegions, self_ty := none,
                          tps := [.infervar 0] },
         vtables := none, self_vtables := none,
         ref_id := none } : Request).real_substs.tps ∧
    monomorphic_fn 1 c7_env init_ccx
      { fn_id := ⟨0, 1⟩,
        real_substs := { regions := .ErasedRegions, self_ty := none,
                         tps := [.infervar 0] },
        vtables := none, self_vtables := none, ref_id := none } =
      (.error .assertionFailure, []) :=
  ⟨by decide, C7_theorem 0 c7_env init_ccx _ (.infervar 0) (by decide)
    (Or.inl rfl)⟩

/-! ## C1: single insertion per id, and immediate cache hits -/

/-- C1: (a) over a whole compilation unit the ids of the cache-insertion
events are pairwise distinct — at most one handle is ever inserted per
`MonoId`; (b) a call whose computed `MonoId` is already cached returns
the cached handle at once, with the context untouched and a log that
contains no allocation, insertion or body-emission work. -/
theorem C1_theorem :
    (∀ (fuel : Nat) (env : Env) (reqs : List Request),
      (insertIds (process_unit fuel env reqs).2).Nodup) ∧
    (∀ (fuel : Nat) (env : Env) (ccx : CContext) (req : Request)
      (hid : MonoId) (val : Handle),
      (req.real_substs.tps.all fun t =>
        !type_needs_infer t && !type_has_params t) = true →
      mono_hash_id req = .ok hid →
      mfind ccx.monomorphized hid = some val →
      monomorphic_fn (fuel + 1) env ccx req =
        (.ok (ccx, val, false), [.cacheHit hid val])) := by
  constructor
  · intro fuel env reqs
    exact (trans_requests_runOk (monomorphic_fn fuel env)
      (fun c r => monomorphic_fn_callOk fuel env c r) reqs init_ccx).1
  · intro fuel env ccx req hid val hA hhash hhit
    exact mono_fn_eq_hit fuel env ccx req hid val hA hhash hhit

/-- The context after the first `id::<Int32>` emission. -/
def id_ctx1 : CContext :=
  { monomorphized := [(id_hash, 0)],
    monomorphizing := [(idf, 0), (idf, 1)],
    n_monos := 1, next_handle := 1 }

/-- C1 witness: a unit that requests `id::<Int32>` twice performs one
insertion, and a call against the populated cache is an immediate hit. -/
theorem C1_witness :
    (insertIds (process_unit 2 id_env [id_req, id_req]).2).Nodup ∧
    monomorphic_fn 2 id_env id_ctx1 id_req =
      (.ok (id_ctx1, 0, false), [.cacheHit id_hash 0]) :=
  ⟨C1_theorem.1 2 id_env [id_req, id_req],
   C1_theorem.2 1 id_env id_ctx1 id_req id_hash 0 rfl rfl (by rfl)⟩

/-! ## C2: the returned boolean is not a freshly-emitted flag -/

/-- The boolean component of a `monomorphic_fn` result. -/
def returned_flag (r : MFResult × List Event) : Option Bool :=
  match r.1 with
  | .ok (_, _, b) => some b
  | .error _ => none

/-- C2 counterexample: the very first `id::<Int32>` call does perform a
fresh emission (it inserts `id_hash` into the cache) yet returns the
boolean `false` — line 311 returns `(lldecl, false)` — contradicting
`freshly_emitted = true` for the first call. -/
theorem C2_counterexample :
    insertIds (monomorphic_fn 2 id_env init_ccx id_req).2 = [id_hash] ∧
    returned_flag (monomorphic_fn 2 id_env init_ccx id_req) = some false :=
  ⟨by rfl, by rfl⟩

/-- An environment resolving node 1 to a non-intrinsic foreign item. -/
def foreign_env : Env :=
  { id_env with
    map := fun n => if n = 1 then some (.NodeForeignItem .OtherAbi)
      else none }

/-- C2 amended: the boolean paired with the handle is not a
freshly-emitted flag — both the fresh-emission return (line 311) and the
cache-hit return (line 82) carry `false`, and only the non-intrinsic
foreign-item reuse path (line 122) carries `true`.  Instantiating
`id<T>` twice with `Int32`: the first call freshly allocates, caches and
emits handle 0, the second call hits the cache; both return the same
handle with the flag `false`. -/
theorem C2_theorem :
    monomorphic_fn 2 id_env init_ccx id_req =
      (.ok (id_ctx1, 0, false),
       [.alloc 0 .int 7, .insert id_hash 0,
        .emitBody .trans_fn idf 0]) ∧
    monomorphic_fn 2 id_env id_ctx1 id_req =
      (.ok (id_ctx1, 0, false), [.cacheHit id_hash 0]) ∧
    monomorphic_fn 1 foreign_env init_ccx id_req =
      (.ok (init_ccx, 100, true), [.getItemVal 1 100]) :=
  ⟨by rfl, by rfl, by rfl⟩

/-! ## C4: allocation and insertion precede body emission -/

/-- C4: in any execution log, every body-emission event
(`trans_fn`/`trans_intrinsic`/`trans_enum_variant`/`trans_tuple_struct`)
on a handle is directly preceded by the allocation of that handle and
the cache insertion of its `MonoId`, so a recursive request for the same
id issued during body emission finds the in-progress declaration in the
cache. -/
theorem C4_theorem (fuel : Nat) (env : Env) (ccx : CContext)
    (req : Request) (l1 l2 : List Event) (r : Routine) (d : DefId)
    (h : Handle)
    (heq : (monomorphic_fn fuel env ccx req).2 =
      l1 ++ Event.emitBody r d h :: l2) :
    ∃ l3 ty s id, l1 = l3 ++ [Event.alloc h ty s, Event.insert id h] :=
  ((monomorphic_fn_callOk fuel env ccx req).2.2.2).emit_preceded
    l1 l2 r d h heq

/-- C4 witness: the decomposition applied to the concrete `id::<Int32>`
emission log. -/
theorem C4_witness :
    ∃ l3 ty s id,
      [Event.alloc 0 Ty.int 7, Event.insert id_hash 0] =
        l3 ++ [Event.alloc 0 ty s, Event.insert id 0] :=
  C4_theorem 2 id_env init_ccx id_req
    [Event.alloc 0 Ty.int 7, Event.insert id_hash 0] [] .trans_fn idf 0
    (by rfl)

/-! ## C9: the depth-table entry is restored, not decremented -/

/-- C9: on the cache-hit path the whole context — the depth table
included — is returned untouched; on every fresh path that returns a
handle, the depth-table entry for the instantiated definition is set
back to exactly the value read before the guard (`0` for an absent
entry), whatever nested emission did to the table in between. -/
theorem C9_theorem :
    (∀ (fuel : Nat) (env : Env) (ccx : CContext) (req : Request)
      (hid : MonoId) (val : Handle),
      (req.real_substs.tps.all fun t =>
        !type_needs_infer t && !type_has_params t) = true →
      mono_hash_id req = .ok hid →
      mfind ccx.monomorphized hid = some val →
      monomorphic_fn (fuel + 1) env ccx req =
        (.ok (ccx, val, false), [.cacheHit hid val])) ∧
    (∀ (fuel : Nat) (env : Env) (ccx : CContext) (req : Request)
      (hid : MonoId) (node : MapNode) (c2 : CContext) (h : Handle)
      (b : Bool),
      (req.real_substs.tps.all fun t =>
        !type_needs_infer t && !type_has_params t) = true →
      mono_hash_id req = .ok hid →
      mfind ccx.monomorphized hid = none →
      env.map req.fn_id.node = some node →
      foreign_non_intrinsic node = false →
      (monomorphic_fn (fuel + 1) env ccx req).1 = .ok (c2, h, b) →
      dfind c2.monomorphizing req.fn_id =
        some ((dfind ccx.monomorphizing req.fn_id).getD 0)) := by
  constructor
  · intro fuel env ccx req hid val hA hhash hhit
    exact mono_fn_eq_hit fuel env ccx req hid val hA hhash hhit
  · intro fuel env ccx req hid node c2 h b hA hhash hmiss hmap hfi hres
    rcases hmty : compute_mono_ty env req node with e | mty
    · simp [monomorphic_fn, hA, hhash, hmiss, hmap, hfi, hmty] at hres
    by_cases hguard : (dfind ccx.monomorphizing req.fn_id).getD 0 >
      env.recursion_limit
    · rw [mono_fn_eq_reclimit fuel env ccx req hid node mty hA hhash hmiss
        hmap hfi hmty hguard] at hres
      cases hres
    have emit_case : ∀ (R : Routine), emit_branch node R →
        dfind c2.monomorphizing req.fn_id =
          some ((dfind ccx.monomorphizing req.fn_id).getD 0) := by
      intro R hbr
      rw [mono_fn_eq_emit fuel env ccx req hid node R mty hA hhash hmiss
        hmap hmty hguard hbr] at hres
      rcases htr : trans_requests (monomorphic_fn fuel env)
          (fresh_ctx ccx req.fn_id hid) (env.body req) with ⟨res2, l2⟩
      rw [htr] at hres
      cases res2 with
      | ok c3 =>
        simp only at hres
        have h1 := Except.ok.inj hres
        have hc : c2 = restore_ctx c3 req.fn_id
            ((dfind ccx.monomorphizing req.fn_id).getD 0) :=
          (Prod.mk.injEq _ _ _ _ ▸ h1).1.symm
        rw [hc, restore_ctx]
        exact dfind_dinsert_self _ _ _
      | error e => cases hres
    cases node with
    | NodeItem isFn =>
      cases isFn with
      | true => exact emit_case .trans_fn (Or.inl ⟨rfl, rfl⟩)
      | false =>
        simp [monomorphic_fn, hA, hhash, hmiss, hmap, hfi, hmty, hguard]
          at hres
    | NodeForeignItem abi =>
      cases abi with
      | OtherAbi => simp [foreign_non_intrinsic] at hfi
      | RustIntrinsic =>
        rcases hsi : env.simple_intrinsic req.fn_id.node with _ | decl
        · rw [mono_fn_eq_emit_intrinsic fuel env ccx req hid mty hA hhash
            hmiss hmap hsi hmty hguard] at hres
          rcases htr : trans_requests (monomorphic_fn fuel env)
              (fresh_ctx ccx req.fn_id hid) (env.body req) with ⟨res2, l2⟩
          rw [htr] at hres
          cases res2 with
          | ok c3 =>
            simp only at hres
            have h1 := Except.ok.inj hres
            have hc : c2 = restore_ctx c3 req.fn_id
                ((dfind ccx.monomorphizing req.fn_id).getD 0) :=
              (Prod.mk.injEq _ _ _ _ ▸ h1).1.symm
            rw [hc, restore_ctx]
            exact dfind_dinsert_self _ _ _
          | error e => cases hres
        · rw [mono_fn_eq_simple fuel env ccx req hid decl mty hA hhash
            hmiss hmap hsi hmty hguard] at hres
          simp only at hres
          have h1 := Except.ok.inj hres
          have hc : c2 = simple_ctx ccx req.fn_id :=
            (Prod.mk.injEq _ _ _ _ ▸ h1).1.symm
          rw [hc, simple_ctx]
          exact dfind_dinsert_self _ _ _
    | NodeVariant kind =>
      cases kind with
      | TupleVariantKind k =>
        exact emit_case .trans_enum_variant
          (Or.inr (Or.inr (Or.inr (Or.inl ⟨k, rfl, rfl⟩))))
      | StructVariantKind =>
        simp [monomorphic_fn, hA, hhash, hmiss, hmap, hfi, hmty, hguard,
          mk_lldecl, dinsert] at hres
    | NodeMethod => exact emit_case .trans_fn (Or.inr (Or.inl ⟨rfl, rfl⟩))
    | NodeTraitMethod tm =>
      cases tm with
      | Provided b2 m =>
        exact emit_case .trans_fn
          (Or.inr (Or.inr (Or.inl ⟨b2, m, rfl, rfl⟩)))
      | Required =>
        simp [monomorphic_fn, hA, hhash, hmiss, hmap, hfi, hmty, hguard]
          at hres
    | NodeStructCtor ctor =>
      cases ctor with
      | some cid =>
        exact emit_case .trans_tuple_struct
          (Or.inr (Or.inr (Or.inr (Or.inr ⟨cid, rfl, rfl⟩))))
      | none =>
        simp [monomorphic_fn, hA, hhash, hmiss, hmap, hfi, hmty, hguard,
          mk_lldecl, dinsert] at hres
    | NodeExpr =>
      simp [monomorphic_fn, hA, hhash, hmiss, hmap, hfi, hmty, hguard]
        at hres
    | NodeStmt =>
      simp [monomorphic_fn, hA, hhash, hmiss, hmap, hfi, hmty, hguard]
        at hres
    | NodeArg =>
      simp [monomorphic_fn, hA, hhash, hmiss, hmap, hfi, hmty, hguard]
        at hres
    | NodeBlock =>
      simp [monomorphic_fn, hA, hhash, hmiss, hmap, hfi, hmty, hguard]
        at hres
    | NodePat =>
      simp [monomorphic_fn, hA, hhash, hmiss, hmap, hfi, hmty, hguard]
        at hres
    | NodeLocal =>
      simp [monomorphic_fn, hA, hhash, hmiss, hmap, hfi, hmty, hguard]
        at hres
    | NodeLifetime =>
      simp [monomorphic_fn, hA, hhash, hmiss, hmap, hfi, hmty, hguard]
        at hres

/-- C9 witness: the restore clause applied to the concrete `id::<Int32>`
emission (absent entry before, `some 0` after), and the hit clause to
the populated cache. -/
theorem C9_witness :
    monomorphic_fn 2 id_env id_ctx1 id_req =
      (.ok (id_ctx1, 0, false), [.cacheHit id_hash 0]) ∧
    dfind id_ctx1.monomorphizing idf =
      some ((dfind init_ccx.monomorphizing idf).getD 0) :=
  ⟨C9_theorem.1 1 id_env id_ctx1 id_req id_hash 0 rfl rfl (by rfl),
   C9_theorem.2 1 id_env init_ccx id_req id_hash (.NodeItem true) id_ctx1
     0 false rfl rfl (by rfl) (by rfl) (by rfl) (by rfl)⟩

/-! ## C10: simple intrinsics are never memoized -/

/-- C10: a request resolving to a `RustIntrinsic` foreign item with a
simple lowering returns that declaration with the flag `false` and
leaves the instantiation cache untouched (no insertion event), so an
immediately repeated request with the same `MonoId` misses the cache
again and repeats the full dispatch, returning the same declaration and
again leaving the cache untouched. -/
theorem C10_theorem (fuel fuel2 : Nat) (env : Env) (ccx : CContext)
    (req : Request) (hid : MonoId) (decl : Handle) (mty : Ty)
    (hA : (req.real_substs.tps.all fun t =>
      !type_needs_infer t && !type_has_params t) = true)
    (hhash : mono_hash_id req = .ok hid)
    (hmiss : mfind ccx.monomorphized hid = none)
    (hmap : env.map req.fn_id.node = some (.NodeForeignItem .RustIntrinsic))
    (hsi : env.simple_intrinsic req.fn_id.node = some decl)
    (hmty : compute_mono_ty env req (.NodeForeignItem .RustIntrinsic) =
      .ok mty)
    (hguard : ¬ (dfind ccx.monomorphizing req.fn_id).getD 0 >
      env.recursion_limit) :
    monomorphic_fn (fuel + 1) env ccx req =
      (.ok (simple_ctx ccx req.fn_id, decl, false),
       [.simpleIntrinsic decl]) ∧
    (simple_ctx ccx req.fn_id).monomorphized = ccx.monomorphized ∧
    monomorphic_fn (fuel2 + 1) env (simple_ctx ccx req.fn_id) req =
      (.ok (simple_ctx (simple_ctx ccx req.fn_id) req.fn_id, decl, false),
       [.simpleIntrinsic decl]) ∧
    (simple_ctx (simple_ctx ccx req.fn_id) req.fn_id).monomorphized =
      ccx.monomorphized := by
  have hc1 : (simple_ctx ccx req.fn_id).monomorphized =
      ccx.monomorphized := rfl
  have hd1 : (dfind (simple_ctx ccx req.fn_id).monomorphizing
      req.fn_id).getD 0 = (dfind ccx.monomorphizing req.fn_id).getD 0 := by
    rw [simple_ctx]
    simp only [dfind_dinsert_self]
    rfl
  refine ⟨mono_fn_eq_simple fuel env ccx req hid decl mty hA hhash hmiss
    hmap hsi hmty hguard, hc1, ?_, rfl⟩
  have h2 := mono_fn_eq_simple fuel2 env (simple_ctx ccx req.fn_id) req
    hid decl mty hA hhash (by rw [hc1]; exact hmiss) hmap hsi hmty
    (by rw [hd1]; exact hguard)
  exact h2

/-- An environment resolving node 1 to a `RustIntrinsic` foreign item
with a simple lowering (handle 55). -/
def intr_env : Env :=
  { id_env with
    map := fun n => if n = 1 then some (.NodeForeignItem .RustIntrinsic)
      else none,
    simple_intrinsic := fun _ => some 55 }

/-- C10 witness: the theorem at the concrete intrinsic environment. -/
theorem C10_witness :
    monomorphic_fn 1 intr_env init_ccx id_req =
      (.ok (simple_ctx init_ccx idf, 55, false), [.simpleIntrinsic 55]) ∧
    (simple_ctx init_ccx idf).monomorphized = init_ccx.monomorphized ∧
    monomorphic_fn 1 intr_env (simple_ctx init_ccx idf) id_req =
      (.ok (simple_ctx (simple_ctx init_ccx idf) idf, 55, false),
       [.simpleIntrinsic 55]) ∧
    (simple_ctx (simple_ctx init_ccx idf) idf).monomorphized =
      init_ccx.monomorphized :=
  C10_theorem 0 0 intr_env init_ccx id_req id_hash 55 .int rfl rfl
    (by rfl) (by rfl) (by rfl) (by rfl) (by decide)

/-! ## C6: static provided methods — reshaped substitution, unreshaped id -/

/-- C6: for a provided trait method with a static receiver, the
allocated declaration's type is obtained by splitting the supplied
argument list at `len(tps) - num_method_ty_params`, reinserting the
resolved self type at the split point and substituting into the declared
type — while the cache lookup and the insertion both use the `MonoId`
computed from the original, unreshaped arguments. -/
theorem C6_theorem (fuel : Nat) (env : Env) (ccx : CContext)
    (req : Request) (hid : MonoId) (m : Nat) (sty : Ty)
    (hA : (req.real_substs.tps.all fun t =>
      !type_needs_infer t && !type_has_params t) = true)
    (hhash : mono_hash_id req = .ok hid)
    (hmiss : mfind ccx.monomorphized hid = none)
    (hmap : env.map req.fn_id.node =
      some (.NodeTraitMethod (.Provided true m)))
    (hself : req.real_substs.self_ty = some sty)
    (hguard : ¬ (dfind ccx.monomorphizing req.fn_id).getD 0 >
      env.recursion_limit) :
    ∃ s l,
      (monomorphic_fn (fuel + 1) env ccx req).2 =
        Event.alloc ccx.next_handle
          (ty_subst
            { regions := .ErasedRegions, self_ty := none,
              tps := req.real_substs.tps.take
                  (req.real_substs.tps.length - m) ++ [sty] ++
                req.real_substs.tps.drop (req.real_substs.tps.length - m) }
            (env.item_ty req.fn_id)) s ::
          Event.insert hid ccx.next_handle :: l := by
  have hmty : compute_mono_ty env req (.NodeTraitMethod (.Provided true m))
      = .ok (ty_subst
        { regions := .ErasedRegions, self_ty := none,
          tps := req.real_substs.tps.take
              (req.real_substs.tps.length - m) ++ [sty] ++
            req.real_substs.tps.drop (req.real_substs.tps.length - m) }
        (env.item_ty req.fn_id)) := by
    simp only [compute_mono_ty, hself]
    rfl
  rw [mono_fn_eq_emit fuel env ccx req hid _ .trans_fn _ hA hhash hmiss
    hmap hmty hguard (Or.inr (Or.inr (Or.inl ⟨true, m, rfl, rfl⟩)))]
  rcases htr : trans_requests (monomorphic_fn fuel env)
      (fresh_ctx ccx req.fn_id hid) (env.body req) with ⟨res2, l2⟩
  cases res2 with
  | ok c2 => exact ⟨_, _, rfl⟩
  | error e => exact ⟨_, _, rfl⟩

/-- A provided static trait method with one trait-level and one
method-level type parameter. -/
def tm_env : Env :=
  { id_env with
    map := fun n => if n = 1 then some (.NodeTraitMethod (.Provided true 1))
      else none }

/-- A request for the static provided method: self type `box (box int)`,
arguments `[int, box int]`, one of which is method-level. -/
def tm_req : Request :=
  { fn_id := idf,
    real_substs := { regions := .ErasedRegions,
                     self_ty := some (.box (.box .int)),
                     tps := [.int, .box .int] },
    vtables := none, self_vtables := none, ref_id := none }

/-- The identity of `tm_req`, from the unreshaped arguments (self type
in position 0). -/
def tm_hash : MonoId :=
  MonoId.mk idf [MonoParamId.mk (.box (.box .int)) [],
    MonoParamId.mk .int [], MonoParamId.mk (.box .int) []]

/-- C6 witness: the reshaped substitution at the concrete method. -/
theorem C6_witness :
    ∃ s l,
      (monomorphic_fn 2 tm_env init_ccx tm_req).2 =
        Event.alloc init_ccx.next_handle
          (ty_subst
            { regions := .ErasedRegions, self_ty := none,
              tps := tm_req.real_substs.tps.take
                  (tm_req.real_substs.tps.length - 1) ++
                [.box (.box .int)] ++
                tm_req.real_substs.tps.drop
                  (tm_req.real_substs.tps.length - 1) }
            (tm_env.item_ty tm_req.fn_id)) s ::
          Event.insert tm_hash init_ccx.next_handle :: l :=
  C6_theorem 1 tm_env init_ccx tm_req tm_hash 1 (.box (.box .int))
    rfl rfl (by rfl) (by rfl) rfl (by decide)

/-! ## C3: the recursion guard -/

/-- A tower of `box` constructors: the strictly growing argument. -/
def tower : Nat → Ty
  | 0 => .int
  | n + 1 => .box (tower n)

/-- The `k`-th nested request of the growing self-instantiation. -/
def rec_req (n : Nat) : Request :=
  { fn_id := idf,
    real_substs := { regions := .ErasedRegions, self_ty := none,
                     tps := [tower n] },
    vtables := none, self_vtables := none, ref_id := none }

/-- The synthetic growing environment: the body of an instantiation at
argument `t` requests the same definition at argument `box t`. -/
def rec_env (L : Nat) : Env :=
  { map := fun n => if n = 1 then some (.NodeItem true) else none,
    item_ty := fun _ => .param 0,
    get_item_val := fun _ => 100,
    simple_intrinsic := fun _ => none,
    body := fun r =>
      [{ r with real_substs :=
        { r.real_substs with tps := r.real_substs.tps.map .box } }],
    recursion_limit := L,
    span := fun n => n,
    exported_name := fun _ _ _ => 7 }

/-- The identity of the `k`-th nested instantiation. -/
def rec_id (k : Nat) : MonoId := MonoId.mk idf [MonoParamId.mk (tower k) []]

/-- The cache after `k` nested fresh emissions have started. -/
def rec_cache : Nat → List (MonoId × Handle)
  | 0 => []
  | k + 1 => (rec_id k, k) :: rec_cache k

/-- The depth table after `k` nested fresh emissions have started. -/
def rec_tab : Nat → List (DefId × Nat)
  | 0 => []
  | k + 1 => (idf, k + 1) :: rec_tab k

/-- The whole context at entry of the `k`-th nested request. -/
def rec_ctx (k : Nat) : CContext :=
  { monomorphized := rec_cache k, monomorphizing := rec_tab k,
    n_monos := k, next_handle := k }

theorem tower_inj : ∀ {j k : Nat}, tower j = tower k → j = k := by
  intro j
  induction j with
  | zero =>
    intro k h
    cases k with
    | zero => rfl
    | succ k => simp [tower] at h
  | succ j ih =>
    intro k h
    cases k with
    | zero => simp [tower] at h
    | succ k =>
      simp only [tower, Ty.box.injEq] at h
      rw [ih h]

theorem rec_id_inj {j k : Nat} (h : rec_id j = rec_id k) : j = k := by
  simp only [rec_id, MonoId.mk.injEq, List.cons.injEq,
    MonoParamId.mk.injEq, true_and, and_true] at h
  exact tower_inj h

theorem mfind_cons_ne {a id : MonoId} {v : Handle}
    {rest : List (MonoId × Handle)} (h : a ≠ id) :
    mfind ((a, v) :: rest) id = mfind rest id := by
  simp [mfind, h]

theorem mfind_rec_cache : ∀ (k m : Nat), k ≤ m →
    mfind (rec_cache k) (rec_id m) = none := by
  intro k
  induction k with
  | zero => intro m _; rfl
  | succ k ih =>
    intro m hm
    rw [rec_cache, mfind_cons_ne, ih m (by omega)]
    intro h
    have := rec_id_inj h
    omega

theorem rec_tab_depth : ∀ (k : Nat),
    (dfind (rec_tab k) idf).getD 0 = k := by
  intro k
  cases k with
  | zero => rfl
  | succ k => simp [rec_tab, dfind]

theorem tower_concrete : ∀ (n : Nat),
    type_needs_infer (tower n) = false ∧
    type_has_params (tower n) = false := by
  intro n
  induction n with
  | zero => exact ⟨rfl, rfl⟩
  | succ n ih =>
    simp only [tower, type_needs_infer, type_has_params]
    exact ih

theorem rec_assert (n : Nat) :
    ((rec_req n).real_substs.tps.all fun t =>
      !type_needs_infer t && !type_has_params t) = true := by
  simp [rec_req, List.all_cons, (tower_concrete n).1, (tower_concrete n).2]

theorem rec_hash (n : Nat) :
    mono_hash_id (rec_req n) = .ok (rec_id n) := rfl

theorem rec_mty (L n : Nat) :
    compute_mono_ty (rec_env L) (rec_req n) (.NodeItem true) =
      .ok (tower n) := rfl

theorem rec_body (L n : Nat) :
    (rec_env L).body (rec_req n) = [rec_req (n + 1)] := rfl

theorem fresh_rec (k : Nat) :
    fresh_ctx (rec_ctx k) idf (rec_id k) = rec_ctx (k + 1) := by
  simp only [fresh_ctx, rec_ctx, dinsert, rec_tab_depth k]
  rfl

/-- The number of body-emission events in a log. -/
def countEmit (l : List Event) : Nat :=
  l.countP fun e => match e with
    | .emitBody _ _ _ => true
    | _ => false

/-- The growing self-instantiation, entered at nesting index `k`, always
aborts with the fatal recursion-limit diagnostic at the definition's
span, after beginning exactly `L + 1 - k` further nested fresh
emissions. -/
theorem rec_run (L : Nat) : ∀ (fuel k : Nat), k ≤ L + 1 →
    L + 2 - k ≤ fuel →
    ∃ log, monomorphic_fn fuel (rec_env L) (rec_ctx k) (rec_req k) =
      (.error (.recursionLimit 1), log) ∧
      countEmit log = L + 1 - k := by
  intro fuel
  induction fuel with
  | zero =>
    intro k hk hf
    omega
  | succ fuel ih =>
    intro k hk hf
    have hmiss : mfind (rec_ctx k).monomorphized (rec_id k) = none :=
      mfind_rec_cache k k (le_refl k)
    have hmap : (rec_env L).map (rec_req k).fn_id.node =
        some (.NodeItem true) := rfl
    have hdepth : (dfind (rec_ctx k).monomorphizing
        (rec_req k).fn_id).getD 0 = k := rec_tab_depth k
    by_cases hk1 : k = L + 1
    · subst hk1
      have hguard : (dfind (rec_ctx (L + 1)).monomorphizing
          (rec_req (L + 1)).fn_id).getD 0 > (rec_env L).recursion_limit := by
        rw [hdepth]
        show L + 1 > L
        omega
      refine ⟨[], ?_, by simp [countEmit]⟩
      rw [mono_fn_eq_reclimit fuel (rec_env L) (rec_ctx (L + 1))
        (rec_req (L + 1)) (rec_id (L + 1)) (.NodeItem true) (tower (L + 1))
        (rec_assert (L + 1)) (rec_hash (L + 1)) hmiss hmap rfl
        (rec_mty L (L + 1)) hguard]
      rfl
    · have hklt : k ≤ L := by omega
      have hguard : ¬ (dfind (rec_ctx k).monomorphizing
          (rec_req k).fn_id).getD 0 > (rec_env L).recursion_limit := by
        rw [hdepth]
        show ¬ k > L
        omega
      obtain ⟨log2, hrun, hcount⟩ := ih (k + 1) (by omega) (by omega)
      refine ⟨Event.alloc (rec_ctx k).next_handle (tower k)
          ((rec_env L).exported_name (rec_req k).fn_id.node (rec_id k)
            (tower k)) ::
        Event.insert (rec_id k) (rec_ctx k).next_handle ::
        Event.emitBody .trans_fn (rec_req k).fn_id
          (rec_ctx k).next_handle :: log2, ?_, ?_⟩
      · rw [mono_fn_eq_emit fuel (rec_env L) (rec_ctx k) (rec_req k)
          (rec_id k) (.NodeItem true) .trans_fn (tower k) (rec_assert k)
          (rec_hash k) hmiss hmap (rec_mty L k) hguard (Or.inl ⟨rfl, rfl⟩)]
        have hbody : trans_requests (monomorphic_fn fuel (rec_env L))
            (fresh_ctx (rec_ctx k) (rec_req k).fn_id (rec_id k))
            ((rec_env L).body (rec_req k)) =
            (.error (.recursionLimit 1), log2) := by
          have hfn : (rec_req k).fn_id = idf := rfl
          rw [hfn, fresh_rec k, rec_body L k]
          simp only [trans_requests, hrun]
        rw [hbody]
      · simp [countEmit, List.countP_cons] at hcount ⊢
        omega

/-- C3: (a) whenever, on the fresh-emission path, the recursion depth
read for the definition exceeds the session's recursion limit, the call
aborts with the fatal recursion-limit diagnostic reported at the span of
the definition, before touching anything; (b) the synthetic definition
that re-instantiates itself with a strictly growing argument aborts
compilation with that diagnostic after beginning exactly `limit + 1`
nested fresh emissions — never fewer. -/
theorem C3_theorem :
    (∀ (fuel : Nat) (env : Env) (ccx : CContext) (req : Request)
      (hid : MonoId) (node : MapNode) (mty : Ty),
      (req.real_substs.tps.all fun t =>
        !type_needs_infer t && !type_has_params t) = true →
      mono_hash_id req = .ok hid →
      mfind ccx.monomorphized hid = none →
      env.map req.fn_id.node = some node →
      foreign_non_intrinsic node = false →
      compute_mono_ty env req node = .ok mty →
      (dfind ccx.monomorphizing req.fn_id).getD 0 >
        env.recursion_limit →
      monomorphic_fn (fuel + 1) env ccx req =
        (.error (.recursionLimit (env.span req.fn_id.node)), [])) ∧
    (∀ (L fuel : Nat), L + 2 ≤ fuel →
      ∃ log, monomorphic_fn fuel (rec_env L) init_ccx (rec_req 0) =
        (.error (.recursionLimit ((rec_env L).span idf.node)), log) ∧
        countEmit log = L + 1) := by
  constructor
  · intro fuel env ccx req hid node mty hA hhash hmiss hmap hfi hmty
      hguard
    exact mono_fn_eq_reclimit fuel env ccx req hid node mty hA hhash hmiss
      hmap hfi hmty hguard
  · intro L fuel hf
    have hinit : init_ccx = rec_ctx 0 := rfl
    rw [hinit]
    obtain ⟨log, hrun, hcount⟩ := rec_run L fuel 0 (by omega) (by omega)
    exact ⟨log, hrun, by omega⟩

/-- C3 witness: the guard clause at a context whose depth entry already
exceeds a zero limit, and the growing scenario at limit 1 with fuel 3:
the abort arrives after exactly two nested fresh emissions. -/
theorem C3_witness :
    monomorphic_fn 1 (rec_env 0) (rec_ctx 1) (rec_req 1) =
      (.error (.recursionLimit ((rec_env 0).span (rec_req 1).fn_id.node)),
       []) ∧
    (∃ log, monomorphic_fn 3 (rec_env 1) init_ccx (rec_req 0) =
      (.error (.recursionLimit ((rec_env 1).span idf.node)), log) ∧
      countEmit log = 2) :=
  ⟨C3_theorem.1 0 (rec_env 0) (rec_ctx 1) (rec_req 1) (rec_id 1)
    (.NodeItem true) (tower 1) (by decide) rfl (by rfl) rfl rfl rfl
    (by decide),
   C3_theorem.2 1 3 (by omega)⟩

end Monomorphize
